import Mathlib

/-! Verification of `ipfs.go` (package `client`).

A shallow embedding of the embedding harness in `src/ipfs.go`:

* the client record, its functional options and `NewIpfsClient`;
* `setupIpfsPlugins`, `createTempIpfsRepo`, `createIpfsNode`;
* the merge loop and the dial fan-out of `connectToIpfsPeers`;
* `Start` as a sequence of atomic blocks, one per statement group of the
  source, interleaved with context cancellation and the `cleanupRepo`
  goroutine;
* `setReady`, `waitForReady`, `OpenFile`, `cleanupRepo`.

External collaborators (multiaddr parsing, the plugin loader, the repository,
the node and its API) are not part of the repository; their results are
supplied by a record of functions, so every theorem holds for all behaviours
of the collaborators.
-/

namespace Client

/-! ## Data model -/

/-- Go `error` values; `fmt.Errorf("msg: %w", err)` is rendered as `"msg: " ++ err`. -/
abbrev Err := String

/-- The type `peer.ID`. -/
abbrev PeerID := String

/-- The type `ma.Multiaddr` (a parsed address). -/
abbrev Multiaddr := String

/-- The type `peerstore.PeerInfo`: `ID peer.ID; Addrs []ma.Multiaddr`. -/
structure PeerInfo where
  ID : PeerID
  Addrs : List Multiaddr
  deriving DecidableEq, Repr

/-- The part of `icore.CoreAPI` that the client uses. `Connect` stands for
`Swarm().Connect(ctx, pi)` (`none` is a nil error), `Get` for
`Unixfs().Get(ctx, path)`; the node is identified by `name`. -/
structure CoreAPI where
  name : String
  Connect : PeerInfo → Option Err
  Get : String → Except Err String

/-- The struct `IpfsClient`. `ipfs = none` is the nil interface value; the
condition variable `readyCond` carries no data and is represented by the
blocking behaviour of `waitForReady`. -/
structure IpfsClient where
  pluginDir : String
  bootstrapPeers : List String
  ready : Bool
  ipfs : Option CoreAPI
  repoPath : String

/-- The package variable `DefaultIpfsBootstrapPeers`. -/
def DefaultIpfsBootstrapPeers : List String :=
  [ "/dnsaddr/bootstrap.libp2p.io/ipfs/QmNnooDu7bfjPFoTZYxMNLWUQJyrVwtbZg5gBMjTezGAJN",
    "/dnsaddr/bootstrap.libp2p.io/ipfs/QmQCU2EcMqAqQPR2i9bChDtGNJchTbq5TbXJJ16u19uLTa",
    "/dnsaddr/bootstrap.libp2p.io/ipfs/QmbLHAnMoJPWSCR5Zhtx6BHJX9KiKNN6tpvbUcqanj75Nb",
    "/dnsaddr/bootstrap.libp2p.io/ipfs/QmcZf59bWwK5XFi76CZX8cbJ4BhTzzA3gU1ZjYZcYW3dwt" ]

/-! ## Options and construction -/

/-- The type `Option func(*IpfsClient)`: a mutation of the client, here a
function from the client before to the client after. (Named `ClientOption`
because `Option` is taken.) -/
abbrev ClientOption := IpfsClient → IpfsClient

/-- The option `WithPluginDir`: `client.pluginDir = pluginDir`. -/
def WithPluginDir (pluginDir : String) : ClientOption :=
  fun client => { client with pluginDir := pluginDir }

/-- The option `WithBootstrapPeers`: `client.bootstrapPeers = peers`. -/
def WithBootstrapPeers (peers : List String) : ClientOption :=
  fun client => { client with bootstrapPeers := peers }

/-- The composite literal of `NewIpfsClient`: `bootstrapPeers` is the default
list, every other field has its zero value. -/
def initialClient : IpfsClient :=
  { pluginDir := "", bootstrapPeers := DefaultIpfsBootstrapPeers,
    ready := false, ipfs := none, repoPath := "" }

/-- The loop `for _, option := range options { option(ipfsClient) }`. -/
def applyOptions : List ClientOption → IpfsClient → IpfsClient
  | [], ipfsClient => ipfsClient
  | option :: rest, ipfsClient => applyOptions rest (option ipfsClient)

/-- The constructor `NewIpfsClient(options...)`. -/
def NewIpfsClient (options : List ClientOption) : IpfsClient :=
  applyOptions options initialClient

/-- The two options the package exports, as data. -/
inductive OptionSpec where
  | pluginDir (dir : String)
  | bootstrapPeers (peers : List String)
  deriving DecidableEq, Repr

/-- The option function an `OptionSpec` stands for. -/
def OptionSpec.toOption : OptionSpec → ClientOption
  | .pluginDir dir => WithPluginDir dir
  | .bootstrapPeers peers => WithBootstrapPeers peers

/-- The directory of the last `WithPluginDir` in a list of options, if any. -/
def lastPluginDir : List OptionSpec → Option String
  | [] => none
  | .pluginDir dir :: rest => (lastPluginDir rest).orElse (fun _ => some dir)
  | .bootstrapPeers _ :: rest => lastPluginDir rest

/-- The list of the last `WithBootstrapPeers` in a list of options, if any. -/
def lastBootstrapPeers : List OptionSpec → Option (List String)
  | [] => none
  | .bootstrapPeers peers :: rest => (lastBootstrapPeers rest).orElse (fun _ => some peers)
  | .pluginDir _ :: rest => lastBootstrapPeers rest

/-! ## External collaborators -/

/-- The configuration record `core.BuildCfg` as filled in by `createIpfsNode`. -/
structure BuildCfg where
  Online : Bool
  Routing : String
  Repo : String
  deriving DecidableEq, Repr

/-- Results of the calls into libraries outside the repository. A nil error
is `none`; a call returning `(value, error)` is an `Except`. -/
structure Collaborators where
  /-- The call `ma.NewMultiaddr(addrStr)`. -/
  NewMultiaddr : String → Except Err Multiaddr
  /-- The call `peerstore.InfoFromP2pAddr(addr)`. -/
  InfoFromP2pAddr : Multiaddr → Except Err PeerInfo
  /-- The call `loader.NewPluginLoader(path)`; the loader is a handle. -/
  NewPluginLoader : String → Except Err String
  /-- The call `plugins.Initialize()`. -/
  Initialize : String → Option Err
  /-- The call `plugins.Inject()`. -/
  Inject : String → Option Err
  /-- The call `ioutil.TempDir("", "cfsync")`. -/
  TempDir : Except Err String
  /-- The call `config.Init(ioutil.Discard, 2048)`; the config is a handle. -/
  configInit : Nat → Except Err String
  /-- The call `fsrepo.Init(repoPath, cfg)`. -/
  fsrepoInit : String → String → Option Err
  /-- The call `fsrepo.Open(repoPath)`; the repository is a handle. -/
  fsrepoOpen : String → Except Err String
  /-- The call `core.NewNode(ctx, nodeOptions)`; the node is a handle. -/
  NewNode : BuildCfg → Except Err String
  /-- The call `coreapi.NewCoreAPI(node)`. -/
  NewCoreAPI : String → Except Err CoreAPI
  /-- The call `icorepath.New(cidStr)`. -/
  pathNew : String → String
  /-- The call `files.ToFile(rootNode)`: the node as a `files.File`, or `none`
  (the nil interface value) when the node is not a file, as for a directory. -/
  ToFile : String → Option String

/-! ## `filepath.Join` (Go standard library, Unix separator) -/

/-- Split a path at every `/`. -/
def splitSlash : List Char → List (List Char)
  | [] => [[]]
  | c :: cs =>
    match splitSlash cs with
    | [] => [[c]]
    | w :: ws => if c = '/' then [] :: w :: ws else (c :: w) :: ws

/-- The element loop of `filepath.Clean`: `stack` holds the elements kept so
far, innermost first. Empty elements and `.` are dropped, `..` removes the
element before it, is dropped at the root, and is kept otherwise. -/
def cleanElems (rooted : Bool) : List (List Char) → List (List Char) → List (List Char)
  | [], stack => stack.reverse
  | e :: es, stack =>
    if e = [] ∨ e = ['.'] then cleanElems rooted es stack
    else if e = ['.', '.'] then
      match stack with
      | top :: below =>
        if top = ['.', '.'] then cleanElems rooted es (e :: stack)
        else cleanElems rooted es below
      | [] => if rooted then cleanElems rooted es [] else cleanElems rooted es [e]
    else cleanElems rooted es (e :: stack)

/-- The function `filepath.Clean` on Unix. -/
def filepathClean (path : String) : String :=
  let rooted := path.data.head? = some '/'
  let body := List.intercalate ['/'] (cleanElems rooted (splitSlash path.data) [])
  if rooted then String.mk ('/' :: body)
  else if body = [] then "." else String.mk body

/-- The function `filepath.Join`: empty leading elements are skipped, the
rest is joined with the separator and cleaned; no non-empty element gives the
empty string. -/
def filepathJoin : List String → String
  | [] => ""
  | e :: es => if e = "" then filepathJoin es else filepathClean (String.intercalate "/" (e :: es))

/-! ## Startup helpers -/

/-- The function `setupIpfsPlugins(externalPluginsPath)`; `none` is a nil error. -/
def setupIpfsPlugins (E : Collaborators) (externalPluginsPath : String) : Option Err :=
  match E.NewPluginLoader (filepathJoin [externalPluginsPath, "plugins"]) with
  | .error err => some ("error loading plugins: " ++ err)
  | .ok plugins =>
    match E.Initialize plugins with
    | some err => some ("error initializing plugins: " ++ err)
    | none =>
      match E.Inject plugins with
      | some err => some ("error initializing plugins: " ++ err)
      | none => none

/-- The function `createTempIpfsRepo(ctx)`. -/
def createTempIpfsRepo (E : Collaborators) : Except Err String :=
  match E.TempDir with
  | .error err => .error ("failed to get temp dir: " ++ err)
  | .ok repoPath =>
    match E.configInit 2048 with
    | .error err => .error ("failed to init ipfs config: " ++ err)
    | .ok cfg =>
      match E.fsrepoInit repoPath cfg with
      | some err => .error ("failed to init fsrepo: " ++ err)
      | none => .ok repoPath

/-- The function `createIpfsNode(ctx, repoPath)`. -/
def createIpfsNode (E : Collaborators) (repoPath : String) : Except Err CoreAPI :=
  match E.fsrepoOpen repoPath with
  | .error err => .error ("failed to open ipfs repo: " ++ err)
  | .ok repo =>
    match E.NewNode { Online := true, Routing := "libp2p.DHTClientOption", Repo := repo } with
    | .error err => .error ("failed to create ipfs node: " ++ err)
    | .ok node => E.NewCoreAPI node

/-! ## Peer connector -/

/-- The map `map[peer.ID]*peerstore.PeerInfo`: entries in insertion order. Go
leaves the iteration order of a map unspecified; the order of this list is one
possible order and no theorem below depends on it. -/
abbrev PeerMap := List (PeerID × PeerInfo)

/-- The map read `peerInfos[id]` with its `ok` flag as the option. -/
def PeerMap.lookup : PeerMap → PeerID → Option PeerInfo
  | [], _ => none
  | (k, pi) :: rest, id => if k = id then some pi else PeerMap.lookup rest id

/-- The write through the pointer stored under `id`:
`pi.Addrs = append(pi.Addrs, addrs...)`. -/
def PeerMap.appendAddrs : PeerMap → PeerID → List Multiaddr → PeerMap
  | [], _, _ => []
  | (k, pi) :: rest, id, addrs =>
    if k = id then (k, { pi with Addrs := pi.Addrs ++ addrs }) :: rest
    else (k, pi) :: PeerMap.appendAddrs rest id addrs

/-- Lines 169-174: look the ID up, create an empty record under it when it is
absent, then append the addresses to the record. -/
def mergeStep (peerInfos : PeerMap) (pii : PeerInfo) : PeerMap :=
  match peerInfos.lookup pii.ID with
  | some _ => peerInfos.appendAddrs pii.ID pii.Addrs
  | none => (peerInfos ++ [(pii.ID, PeerInfo.mk pii.ID [])]).appendAddrs pii.ID pii.Addrs

/-- Lines 161-168: a descriptor is parsed as a multiaddr, then as a peer address. -/
def parseDescriptor (E : Collaborators) (addrStr : String) : Except Err PeerInfo :=
  match E.NewMultiaddr addrStr with
  | .error err => .error err
  | .ok addr =>
    match E.InfoFromP2pAddr addr with
    | .error err => .error err
    | .ok pii => .ok pii

/-- The loop of lines 160-175 from a given map; a parse error returns at once. -/
def mergeLoop (E : Collaborators) : List String → PeerMap → Except Err PeerMap
  | [], peerInfos => .ok peerInfos
  | addrStr :: rest, peerInfos =>
    match parseDescriptor E addrStr with
    | .error err => .error err
    | .ok pii => mergeLoop E rest (mergeStep peerInfos pii)

/-- The merge step of `connectToIpfsPeers`: the loop from the empty map. -/
def mergePeers (E : Collaborators) (bootstrapPeers : List String) : Except Err PeerMap :=
  mergeLoop E bootstrapPeers []

/-- What a run of the program does that can be observed from outside. -/
inductive Event where
  /-- The call `loader.NewPluginLoader(path)` (line 140). -/
  | NewPluginLoader (path : String)
  /-- The call `createTempIpfsRepo(ctx)` (line 83). -/
  | createTempIpfsRepo
  /-- The statement `go i.cleanupRepo(ctx)` (line 88). -/
  | goCleanupRepo
  /-- The call `createIpfsNode(ctx, repo)` (line 90). -/
  | createIpfsNode (repo : String)
  /-- The call `i.ipfs.Swarm().Connect(ctx, *peerInfo)` on the named node (line 181). -/
  | Connect (node : String) (peerInfo : PeerInfo)
  /-- The call `log.Printf` (line 183). -/
  | Printf (msg : String)
  /-- The call `i.setReady()` (line 101). -/
  | setReady
  /-- The call `log.Fatal`, which ends the process. -/
  | Fatal (msg : String)
  /-- The call `os.RemoveAll(path)` (line 135). -/
  | RemoveAll (path : String)
  /-- The call `i.ipfs.Unixfs().Get(ctx, path)` on the named node (line 123). -/
  | Get (node : String) (path : String)
  deriving DecidableEq, Repr

/-- The body of one dial goroutine (lines 180-184). -/
def dial (api : CoreAPI) (peerInfo : PeerInfo) : List Event :=
  match api.Connect peerInfo with
  | some err =>
    [.Connect api.name peerInfo, .Printf ("failed to connect to " ++ peerInfo.ID ++ ": " ++ err)]
  | none => [.Connect api.name peerInfo]

/-- How a call ended. -/
inductive Outcome (α : Type) where
  /-- The call returned the value. -/
  | returned (value : α)
  /-- A method was called on the nil node handle. -/
  | nilDereference
  /-- The call is blocked in `readyCond.Wait()`. -/
  | blocked

/-- The function `connectToIpfsPeers`: the returned error (`none` is nil) and
the events of the dial goroutines, one goroutine per entry of the map. The
goroutines run concurrently and `wg.Wait()` returns after all of them; their
events are listed goroutine by goroutine, which is one possible order. With an
empty map no goroutine runs and the node handle is not used. -/
def connectToIpfsPeers (E : Collaborators) (i : IpfsClient) : Outcome (Option Err) × List Event :=
  match mergePeers E i.bootstrapPeers with
  | .error err => (.returned (some err), [])
  | .ok [] => (.returned none, [])
  | .ok (entry :: entries) =>
    match i.ipfs with
    | none => (.nilDereference, [])
    | some api => (.returned none, ((entry :: entries).map (fun kv => dial api kv.2)).flatten)

/-- The `Connect` calls among a list of events, in order. -/
def dialAttempts : List Event → List PeerInfo
  | [] => []
  | .Connect _ peerInfo :: rest => peerInfo :: dialAttempts rest
  | _ :: rest => dialAttempts rest

/-- The `RemoveAll` calls among a list of events, in order. -/
def deletions : List Event → List String
  | [] => []
  | .RemoveAll path :: rest => path :: deletions rest
  | _ :: rest => deletions rest

/-- The `NewPluginLoader` calls among a list of events, in order. -/
def loaderPaths : List Event → List String
  | [] => []
  | .NewPluginLoader path :: rest => path :: loaderPaths rest
  | _ :: rest => loaderPaths rest

/-! ## Readiness gate and retrieval -/

/-- The method `setReady`: under the lock, `i.ready = true`, then broadcast. -/
def setReady (i : IpfsClient) : IpfsClient :=
  { i with ready := true }

/-- The method `waitForReady`: the loop `for !i.ready { i.readyCond.Wait() }`
is left exactly when `ready` is set; until then the caller stays blocked. The
client is not written. -/
def waitForReady (i : IpfsClient) : Outcome Unit :=
  if i.ready then .returned () else .blocked

/-- The method `OpenFile(ctx, cidStr)`: the pair `(stream, error)` it returns
(`none` is nil) and the events it causes. The client is not written. On
success the stream is whatever `files.ToFile` gives, nil included: the code
does not look at it before returning it with a nil error. -/
def OpenFile (E : Collaborators) (i : IpfsClient) (cidStr : String) :
    Outcome (Option String × Option Err) × List Event :=
  match waitForReady i with
  | .blocked => (.blocked, [])
  | .nilDereference => (.nilDereference, [])
  | .returned () =>
    let cid := E.pathNew cidStr
    match i.ipfs with
    | none => (.nilDereference, [])
    | some api =>
      match api.Get cid with
      | .error err => (.returned (none, some err), [.Get api.name cid])
      | .ok rootNode => (.returned (E.ToFile rootNode, none), [.Get api.name cid])

/-! ## `Start`, context cancellation and the cleanup goroutine -/

/-- Where the goroutine running `Start` stands: before the statement group
named, or after the method returned, or after `log.Fatal` ended the process. -/
inductive PC where
  /-- Before lines 78-81 (`setupIpfsPlugins`). -/
  | plugins
  /-- Before lines 83-88 (`createTempIpfsRepo`, `go i.cleanupRepo`). -/
  | repo
  /-- Before lines 90-94 (`createIpfsNode`). -/
  | node
  /-- Before lines 96-99 (`connectToIpfsPeers`). -/
  | connect
  /-- Before line 101 (`i.setReady()`). -/
  | signal
  /-- After `Start` returned. -/
  | returned
  /-- After `log.Fatal` (or a nil dereference) ended the process. -/
  | exited
  deriving DecidableEq, Repr

/-- Where the goroutine `cleanupRepo` stands. -/
inductive Cleanup where
  /-- The statement `go i.cleanupRepo(ctx)` has not run. -/
  | notLaunched
  /-- Blocked in `<-ctx.Done()` (line 133). -/
  | waiting
  /-- Past line 133, before `os.RemoveAll` (line 135). -/
  | woken
  /-- After `os.RemoveAll` returned. -/
  | finished
  deriving DecidableEq, Repr

/-- The state of one client with its `Start` goroutine, the context handed to
`Start`, and the cleanup goroutine. `repo` is the local variable of `Start`. -/
structure Sys where
  client : IpfsClient
  pc : PC
  repo : String
  ctxDone : Bool
  cleanup : Cleanup
  events : List Event

/-- The state in which `Start` is about to be called on a client. -/
def Sys.init (client : IpfsClient) : Sys :=
  { client := client, pc := .plugins, repo := "", ctxDone := false,
    cleanup := .notLaunched, events := [] }

/-- The call `log.Fatal(msg)`: the message is logged and the process ends. -/
def Sys.fatal (s : Sys) (calls : List Event) (msg : String) : Sys :=
  { s with pc := .exited, events := s.events ++ calls ++ [.Fatal msg] }

/-- One statement group of `Start`, run by the goroutine of `Start`. -/
def startBlock (E : Collaborators) (s : Sys) : Sys :=
  match s.pc with
  | .plugins =>
    let call := [Event.NewPluginLoader (filepathJoin [s.client.pluginDir, "plugins"])]
    match setupIpfsPlugins E s.client.pluginDir with
    | some err => s.fatal call err
    | none => { s with pc := .repo, events := s.events ++ call }
  | .repo =>
    match createTempIpfsRepo E with
    | .error err => s.fatal [.createTempIpfsRepo] ("failed to create ipfs repo: " ++ err)
    | .ok repo =>
      { s with
        client := { s.client with repoPath := repo }
        repo := repo
        cleanup := .waiting
        pc := .node
        events := s.events ++ [.createTempIpfsRepo, .goCleanupRepo] }
  | .node =>
    match createIpfsNode E s.repo with
    | .error err => s.fatal [.createIpfsNode s.repo] ("failed to create ipfs node: " ++ err)
    | .ok ipfs =>
      { s with
        client := { s.client with ipfs := some ipfs }
        pc := .connect
        events := s.events ++ [.createIpfsNode s.repo] }
  | .connect =>
    match connectToIpfsPeers E s.client with
    | (.returned (some err), calls) => s.fatal calls ("failed to connect to ipfs peers: " ++ err)
    | (.returned none, calls) => { s with pc := .signal, events := s.events ++ calls }
    | (_, calls) => { s with pc := .exited, events := s.events ++ calls }
  | .signal =>
    { s with client := setReady s.client, pc := .returned, events := s.events ++ [.setReady] }
  | .returned => s
  | .exited => s

/-- What can happen next: the goroutine of `Start` runs its next statement
group, the caller cancels the context, the cleanup goroutine gets past
`<-ctx.Done()`, or the cleanup goroutine runs `os.RemoveAll(i.repoPath)`. -/
inductive Action where
  | start
  | cancel
  | cleanupWake
  | cleanupRemove
  deriving DecidableEq, Repr

/-- One transition; `none` when the action cannot happen in the state. Nothing
happens after the process ended. -/
def step (E : Collaborators) (a : Action) (s : Sys) : Option Sys :=
  if s.pc = .exited then none
  else
    match a with
    | .start => if s.pc = .returned then none else some (startBlock E s)
    | .cancel => some { s with ctxDone := true }
    | .cleanupWake =>
      if s.cleanup = .waiting ∧ s.ctxDone = true then some { s with cleanup := .woken } else none
    | .cleanupRemove =>
      if s.cleanup = .woken then
        some { s with cleanup := .finished, events := s.events ++ [.RemoveAll s.client.repoPath] }
      else none

/-- A schedule: the actions are tried in order, one that cannot happen is skipped. -/
def run (E : Collaborators) : List Action → Sys → Sys
  | [], s => s
  | a :: rest, s => run E rest ((step E a s).getD s)

/-- The method `Start` run on its own from a fresh context: its five statement
groups in order. A group after the end of `Start` changes nothing. -/
def Start (E : Collaborators) (i : IpfsClient) : Sys :=
  startBlock E (startBlock E (startBlock E (startBlock E (startBlock E (Sys.init i)))))

/-! ## Several clients in one process -/

/-- An operation of the package on the clients of a process; clients are
named by their position in the order of creation. -/
inductive ClientOp where
  /-- The call `NewIpfsClient(options...)`. -/
  | NewIpfsClient (options : List ClientOption)
  /-- A transition of `Start`, its context or its cleanup goroutine, for one client. -/
  | sched (client : Nat) (a : Action)
  /-- A call of `setReady` on one client. -/
  | setReady (client : Nat)
  /-- A call of `waitForReady` on one client. -/
  | waitForReady (client : Nat)
  /-- A call of `OpenFile` on one client. -/
  | OpenFile (client : Nat) (cidStr : String)

/-- The effect of an operation on one client's state. -/
def applyToClient (E : Collaborators) (op : ClientOp) (s : Sys) : Sys :=
  match op with
  | .NewIpfsClient _ => s
  | .sched _ a => (step E a s).getD s
  | .setReady _ => { s with client := setReady s.client, events := s.events ++ [.setReady] }
  | .waitForReady _ => s
  | .OpenFile _ cidStr => { s with events := s.events ++ (OpenFile E s.client cidStr).2 }

/-- Update the state at position `n`, when there is one. -/
def updateAt (f : Sys → Sys) : Nat → List Sys → List Sys
  | _, [] => []
  | 0, s :: rest => f s :: rest
  | n + 1, s :: rest => s :: updateAt f n rest

/-- Whether `log.Fatal` has ended the process. -/
def processExited (w : List Sys) : Bool :=
  w.any (fun s => decide (s.pc = .exited))

/-- One operation on the clients of a process. -/
def applyOp (E : Collaborators) (op : ClientOp) (w : List Sys) : List Sys :=
  if processExited w then w
  else
    match op with
    | .NewIpfsClient options => w ++ [Sys.init (NewIpfsClient options)]
    | .sched client a => updateAt (applyToClient E (.sched client a)) client w
    | .setReady client => updateAt (applyToClient E (.setReady client)) client w
    | .waitForReady client => updateAt (applyToClient E (.waitForReady client)) client w
    | .OpenFile client cidStr => updateAt (applyToClient E (.OpenFile client cidStr)) client w

/-- A sequence of operations, in order. -/
def runOps (E : Collaborators) : List ClientOp → List Sys → List Sys
  | [], w => w
  | op :: rest, w => runOps E rest (applyOp E op w)

/-! ## Vocabulary of the statements -/

/-- Whether a descriptor parses, as a multiaddr and as a peer address. -/
def parses (E : Collaborators) (addrStr : String) : Bool :=
  match parseDescriptor E addrStr with
  | .ok _ => true
  | .error _ => false

/-- The parse results of the descriptors of a list that parse, in order. -/
def parsedInfos (E : Collaborators) : List String → List PeerInfo
  | [] => []
  | addrStr :: rest =>
    match parseDescriptor E addrStr with
    | .ok pii => pii :: parsedInfos E rest
    | .error _ => parsedInfos E rest

/-- The addresses supplied for a peer ID by a list of parse results: those of
every occurrence of the ID, in order of occurrence. -/
def suppliedAddrs : List PeerInfo → PeerID → List Multiaddr
  | [], _ => []
  | pii :: rest, id =>
    if pii.ID = id then pii.Addrs ++ suppliedAddrs rest id else suppliedAddrs rest id

/-- The keys of the map. -/
def PeerMap.keys (m : PeerMap) : List PeerID := m.map Prod.fst

/-- The map holds exactly the merge of the parse results `ps`: one entry per
peer ID occurring in `ps`, stored under that ID, with the addresses supplied
for it. -/
def Merged (m : PeerMap) (ps : List PeerInfo) : Prop :=
  m.keys.Nodup ∧ (∀ id, id ∈ m.keys ↔ id ∈ ps.map PeerInfo.ID) ∧
  ∀ kv ∈ m, kv.2.ID = kv.1 ∧ kv.2.Addrs = suppliedAddrs ps kv.1

/-- What holds in every state of a run of `Start` on a client whose flag was
`ready₀` at the call: the flag is written only by the last statement; the
cleanup goroutine exists exactly from the repository block on, and then the
repository path is the one `createTempIpfsRepo` returned; from the connect
block on the node is the one `createIpfsNode` returned; the goroutine gets
past `<-ctx.Done()` only on a cancelled context; the only `RemoveAll` is the
one of the finished goroutine. -/
def Inv (E : Collaborators) (ready₀ : Bool) (s : Sys) : Prop :=
  (s.pc ≠ .returned → s.client.ready = ready₀) ∧
  ((s.pc = .plugins ∨ s.pc = .repo) → s.cleanup = .notLaunched) ∧
  ((s.pc = .node ∨ s.pc = .connect ∨ s.pc = .signal ∨ s.pc = .returned) →
    s.cleanup ≠ .notLaunched) ∧
  (s.cleanup ≠ .notLaunched →
    createTempIpfsRepo E = .ok s.repo ∧ s.client.repoPath = s.repo) ∧
  ((s.pc = .connect ∨ s.pc = .signal ∨ s.pc = .returned) →
    ∃ api, createIpfsNode E s.repo = .ok api ∧ s.client.ipfs = some api) ∧
  ((s.cleanup = .woken ∨ s.cleanup = .finished) → s.ctxDone = true) ∧
  (s.cleanup = .finished → deletions s.events = [s.client.repoPath]) ∧
  (s.cleanup ≠ .finished → deletions s.events = [])

/-- The states a single run of `Start` on the client `i` can be in, under any
schedule of `Start`, cancellation and the cleanup goroutine. -/
def Reachable (E : Collaborators) (i : IpfsClient) (s : Sys) : Prop :=
  ∃ acts, run E acts (Sys.init i) = s

/-- Every step of `Start` before the readiness signal succeeds. -/
def startSucceeds (E : Collaborators) (i : IpfsClient) : Prop :=
  setupIpfsPlugins E i.pluginDir = none ∧
  (∃ repo, createTempIpfsRepo E = .ok repo ∧ ∃ api, createIpfsNode E repo = .ok api) ∧
  ∀ d ∈ i.bootstrapPeers, parses E d = true

/-! ## Sample collaborators -/

/-- A node whose dials all fail and which serves one file and one directory. -/
def sampleNode : CoreAPI :=
  { name := "node0"
    Connect := fun _ => some "dial backoff"
    Get := fun path =>
      if path = "/ipfs/QmFile" then .ok "file-node"
      else if path = "/ipfs/QmDir" then .ok "dir-node"
      else .error "not found" }

/-- Collaborators that accept three descriptors, two of them for the same
peer, and on which every startup step succeeds. -/
def sampleCollaborators : Collaborators :=
  { NewMultiaddr := fun s => if s = "garbage" then .error "invalid multiaddr" else .ok s
    InfoFromP2pAddr := fun addr =>
      if addr = "/ip4/10.0.0.1/tcp/4001/ipfs/QmA" then .ok ⟨"QmA", ["/ip4/10.0.0.1/tcp/4001"]⟩
      else if addr = "/ip4/10.0.0.2/tcp/4001/ipfs/QmA" then .ok ⟨"QmA", ["/ip4/10.0.0.2/tcp/4001"]⟩
      else if addr = "/ip4/10.0.0.3/tcp/4001/ipfs/QmB" then .ok ⟨"QmB", ["/ip4/10.0.0.3/tcp/4001"]⟩
      else .error "invalid p2p multiaddr"
    NewPluginLoader := fun path => .ok path
    Initialize := fun _ => none
    Inject := fun _ => none
    TempDir := .ok "/tmp/cfsync123"
    configInit := fun _ => .ok "cfg"
    fsrepoInit := fun _ _ => none
    fsrepoOpen := fun path => .ok path
    NewNode := fun _ => .ok "node0"
    NewCoreAPI := fun _ => .ok sampleNode
    pathNew := fun cidStr => "/ipfs/" ++ cidStr
    ToFile := fun rootNode =>
      if rootNode = "dir-node" then none else some ("stream of " ++ rootNode) }

/-- The same collaborators, except that the node cannot be constructed. -/
def nodeFailsCollaborators : Collaborators :=
  { sampleCollaborators with NewNode := fun _ => .error "listen: address in use" }

/-- Descriptors of scenario C followed by a second peer. -/
def sampleDescriptors : List String :=
  [ "/ip4/10.0.0.1/tcp/4001/ipfs/QmA",
    "/ip4/10.0.0.3/tcp/4001/ipfs/QmB",
    "/ip4/10.0.0.2/tcp/4001/ipfs/QmA" ]

/-- A client of the sample descriptors to which a node has been attached. -/
def sampleClient : IpfsClient :=
  { NewIpfsClient [WithBootstrapPeers sampleDescriptors] with ipfs := some sampleNode }

end Client


namespace Client

/-! ## Construction -/

theorem applyOptions_eq_foldl (options : List ClientOption) (c : IpfsClient) :
    applyOptions options c = options.foldl (fun client option => option client) c := by
  induction options generalizing c with
  | nil => rfl
  | cons o rest ih => simp [applyOptions, ih]

theorem applyOptions_specs (specs : List OptionSpec) (c : IpfsClient) :
    applyOptions (specs.map OptionSpec.toOption) c =
      { c with
        pluginDir := (lastPluginDir specs).getD c.pluginDir
        bootstrapPeers := (lastBootstrapPeers specs).getD c.bootstrapPeers } := by
  induction specs generalizing c with
  | nil => rfl
  | cons o rest ih =>
    cases o with
    | pluginDir dir =>
      simp only [List.map_cons, applyOptions, ih, OptionSpec.toOption, WithPluginDir,
        lastPluginDir, lastBootstrapPeers]
      cases lastPluginDir rest <;> rfl
    | bootstrapPeers peers =>
      simp only [List.map_cons, applyOptions, ih, OptionSpec.toOption, WithBootstrapPeers,
        lastPluginDir, lastBootstrapPeers]
      cases lastBootstrapPeers rest <;> rfl

theorem NewIpfsClient_specs_ready (specs : List OptionSpec) :
    (NewIpfsClient (specs.map OptionSpec.toOption)).ready = false := by
  simp only [NewIpfsClient, applyOptions_specs]
  rfl

/-- C6: `NewIpfsClient` is the left-to-right fold of the options over the
default client; without options the defaults are returned; `WithPluginDir`
writes only `pluginDir` and `WithBootstrapPeers` only `bootstrapPeers`; for a
list of these options each field is decided by the last option that names it
and is the default when none does. -/
theorem C6_NewIpfsClient_is_fold_of_options :
    (∀ options : List ClientOption,
      NewIpfsClient options = options.foldl (fun client option => option client) initialClient) ∧
    NewIpfsClient [] = initialClient ∧
    (initialClient.bootstrapPeers = DefaultIpfsBootstrapPeers ∧ initialClient.pluginDir = "" ∧
      initialClient.ready = false) ∧
    (∀ (dir : String) (c : IpfsClient),
      (WithPluginDir dir c).pluginDir = dir ∧
      (WithPluginDir dir c).bootstrapPeers = c.bootstrapPeers ∧
      (WithPluginDir dir c).ready = c.ready ∧
      (WithPluginDir dir c).ipfs = c.ipfs ∧
      (WithPluginDir dir c).repoPath = c.repoPath) ∧
    (∀ (peers : List String) (c : IpfsClient),
      (WithBootstrapPeers peers c).bootstrapPeers = peers ∧
      (WithBootstrapPeers peers c).pluginDir = c.pluginDir ∧
      (WithBootstrapPeers peers c).ready = c.ready ∧
      (WithBootstrapPeers peers c).ipfs = c.ipfs ∧
      (WithBootstrapPeers peers c).repoPath = c.repoPath) ∧
    (∀ specs : List OptionSpec,
      (NewIpfsClient (specs.map OptionSpec.toOption)).pluginDir =
        (lastPluginDir specs).getD "" ∧
      (NewIpfsClient (specs.map OptionSpec.toOption)).bootstrapPeers =
        (lastBootstrapPeers specs).getD DefaultIpfsBootstrapPeers ∧
      (NewIpfsClient (specs.map OptionSpec.toOption)).ready = false ∧
      (NewIpfsClient (specs.map OptionSpec.toOption)).ipfs = none ∧
      (NewIpfsClient (specs.map OptionSpec.toOption)).repoPath = "") ∧
    (∀ (specs : List OptionSpec) (dir : String) (peers : List String),
      (NewIpfsClient ((specs ++ [OptionSpec.pluginDir dir]).map OptionSpec.toOption)).pluginDir = dir ∧
      (NewIpfsClient ((specs ++ [OptionSpec.bootstrapPeers peers]).map
        OptionSpec.toOption)).bootstrapPeers = peers) := by
  refine ⟨fun options => applyOptions_eq_foldl options _, rfl, ⟨rfl, rfl, rfl⟩,
    fun _ _ => ⟨rfl, rfl, rfl, rfl, rfl⟩, fun _ _ => ⟨rfl, rfl, rfl, rfl, rfl⟩, ?_, ?_⟩
  · intro specs
    simp only [NewIpfsClient, applyOptions_specs]
    exact ⟨rfl, rfl, rfl, rfl, rfl⟩
  · intro specs dir peers
    simp only [NewIpfsClient, List.map_append, List.map_cons, List.map_nil,
      applyOptions_eq_foldl, List.foldl_append, List.foldl_cons, List.foldl_nil,
      OptionSpec.toOption, WithPluginDir, WithBootstrapPeers, and_self]

/-! ## The peer map -/

theorem lookup_eq_none_iff (m : PeerMap) (id : PeerID) :
    m.lookup id = none ↔ id ∉ m.keys := by
  induction m with
  | nil => simp [PeerMap.lookup, PeerMap.keys]
  | cons kv rest ih =>
    obtain ⟨k, pi⟩ := kv
    by_cases h : k = id
    · simp [PeerMap.lookup, PeerMap.keys, h]
    · have h' : ¬ id = k := fun e => h e.symm
      simpa [PeerMap.lookup, PeerMap.keys, h, h'] using ih

theorem lookup_eq_some_iff (m : PeerMap) (hm : m.keys.Nodup) (id : PeerID) (pi : PeerInfo) :
    m.lookup id = some pi ↔ (id, pi) ∈ m := by
  induction m with
  | nil => simp [PeerMap.lookup]
  | cons kv rest ih =>
    obtain ⟨k, q⟩ := kv
    simp only [PeerMap.keys, List.map_cons, List.nodup_cons] at hm
    by_cases h : k = id
    · subst h
      have hno : ∀ q', (k, q') ∉ rest := fun q' hq => hm.1 (List.mem_map.2 ⟨_, hq, rfl⟩)
      simp only [PeerMap.lookup, if_true, Option.some.injEq, List.mem_cons, Prod.mk.injEq,
        true_and]
      constructor
      · intro e; exact Or.inl e.symm
      · rintro (e | e)
        · exact e.symm
        · exact absurd e (hno _)
    · have h' : ¬ id = k := fun e => h e.symm
      simp only [PeerMap.lookup, h, if_false, List.mem_cons, Prod.mk.injEq, h', false_and,
        false_or]
      exact ih hm.2

theorem appendAddrs_eq_map (m : PeerMap) (hm : m.keys.Nodup) (id : PeerID)
    (addrs : List Multiaddr) :
    m.appendAddrs id addrs =
      m.map (fun kv => if kv.1 = id then (kv.1, PeerInfo.mk kv.2.ID (kv.2.Addrs ++ addrs))
        else kv) := by
  induction m with
  | nil => rfl
  | cons kv rest ih =>
    obtain ⟨k, q⟩ := kv
    simp only [PeerMap.keys, List.map_cons, List.nodup_cons] at hm
    by_cases h : k = id
    · subst h
      have hid : rest.map (fun kv => if kv.1 = k then
          (kv.1, PeerInfo.mk kv.2.ID (kv.2.Addrs ++ addrs)) else kv) = rest := by
        conv_rhs => rw [← List.map_id rest]
        apply List.map_congr_left
        intro kv hkv
        have : kv.1 ≠ k := fun e => hm.1 (List.mem_map.2 ⟨kv, hkv, e⟩)
        simp [this]
      simp only [PeerMap.appendAddrs, if_true, List.map_cons, hid]
    · simp only [PeerMap.appendAddrs, h, if_false, List.map_cons]
      rw [ih hm.2]

theorem appendAddrs_keys (m : PeerMap) (id : PeerID) (addrs : List Multiaddr) :
    (m.appendAddrs id addrs).keys = m.keys := by
  induction m with
  | nil => rfl
  | cons kv rest ih =>
    obtain ⟨k, q⟩ := kv
    by_cases h : k = id
    · simp [PeerMap.appendAddrs, PeerMap.keys, h]
    · simpa [PeerMap.appendAddrs, PeerMap.keys, h] using ih

theorem suppliedAddrs_append (ps qs : List PeerInfo) (id : PeerID) :
    suppliedAddrs (ps ++ qs) id = suppliedAddrs ps id ++ suppliedAddrs qs id := by
  induction ps with
  | nil => rfl
  | cons p rest ih =>
    by_cases h : p.ID = id <;> simp [suppliedAddrs, h, ih]

theorem mem_suppliedAddrs (ps : List PeerInfo) (id : PeerID) (a : Multiaddr) :
    a ∈ suppliedAddrs ps id ↔ ∃ pii ∈ ps, pii.ID = id ∧ a ∈ pii.Addrs := by
  induction ps with
  | nil => simp [suppliedAddrs]
  | cons p rest ih =>
    by_cases h : p.ID = id
    · simp [suppliedAddrs, h, ih]
    · simp [suppliedAddrs, h, ih]

theorem suppliedAddrs_eq_nil (ps : List PeerInfo) (id : PeerID)
    (h : id ∉ ps.map PeerInfo.ID) : suppliedAddrs ps id = [] := by
  induction ps with
  | nil => rfl
  | cons p rest ih =>
    simp only [List.map_cons, List.mem_cons, not_or] at h
    have h1 : ¬ p.ID = id := fun e => h.1 e.symm
    simp [suppliedAddrs, h1, ih h.2]

theorem appendAddrs_merged (m : PeerMap) (ps : List PeerInfo) (p : PeerInfo)
    (hn : m.keys.Nodup)
    (hk : ∀ id, id ∈ m.keys ↔ (id ∈ ps.map PeerInfo.ID ∨ id = p.ID))
    (he : ∀ kv ∈ m, kv.2.ID = kv.1 ∧ kv.2.Addrs = suppliedAddrs ps kv.1) :
    Merged (m.appendAddrs p.ID p.Addrs) (ps ++ [p]) := by
  refine ⟨?_, ?_, ?_⟩
  · rw [appendAddrs_keys]; exact hn
  · intro id
    rw [appendAddrs_keys, hk id]
    simp
  · intro kv hkv
    rw [appendAddrs_eq_map m hn] at hkv
    obtain ⟨kv0, hkv0, rfl⟩ := List.mem_map.1 hkv
    obtain ⟨h1, h2⟩ := he kv0 hkv0
    by_cases h : kv0.1 = p.ID
    · simp only [h, if_true, suppliedAddrs_append, suppliedAddrs, List.append_nil]
      refine ⟨by rw [h1, h], ?_⟩
      rw [h2, h]
    · have h' : ¬ p.ID = kv0.1 := fun e => h e.symm
      simp only [h, if_false, suppliedAddrs_append, suppliedAddrs, h', List.append_nil]
      exact ⟨h1, h2⟩

theorem mergeStep_merged (m : PeerMap) (ps : List PeerInfo) (p : PeerInfo)
    (hm : Merged m ps) : Merged (mergeStep m p) (ps ++ [p]) := by
  obtain ⟨hn, hk, he⟩ := hm
  unfold mergeStep
  cases hl : m.lookup p.ID with
  | some q =>
    have hin : p.ID ∈ m.keys := by
      by_contra hc
      rw [(lookup_eq_none_iff m p.ID).2 hc] at hl
      exact Option.noConfusion hl
    refine appendAddrs_merged m ps p hn ?_ he
    intro id
    constructor
    · intro h; exact Or.inl ((hk id).1 h)
    · rintro (h | h)
      · exact (hk id).2 h
      · rw [h]; exact hin
  | none =>
    have hnot : p.ID ∉ m.keys := (lookup_eq_none_iff m p.ID).1 hl
    refine appendAddrs_merged _ ps p ?_ ?_ ?_
    · simp only [PeerMap.keys, List.map_append, List.map_cons, List.map_nil]
      refine List.Nodup.append hn (List.nodup_singleton _) ?_
      intro a ha hb
      rw [List.mem_singleton] at hb
      exact hnot (hb ▸ ha)
    · intro id
      have := hk id
      simp only [PeerMap.keys] at this
      simp [PeerMap.keys, this]
    · intro kv hkv
      rcases List.mem_append.1 hkv with h | h
      · exact he kv h
      · rw [List.mem_singleton] at h
        subst h
        exact ⟨rfl, (suppliedAddrs_eq_nil ps p.ID (fun hc => hnot ((hk _).2 hc))).symm⟩

theorem foldl_mergeStep_merged (qs : List PeerInfo) (m : PeerMap) (ps : List PeerInfo)
    (hm : Merged m ps) : Merged (qs.foldl mergeStep m) (ps ++ qs) := by
  induction qs generalizing m ps with
  | nil => simpa using hm
  | cons q rest ih =>
    have := ih (mergeStep m q) (ps ++ [q]) (mergeStep_merged m ps q hm)
    simpa using this

theorem merged_nil : Merged [] [] := by
  refine ⟨List.nodup_nil, fun id => Iff.rfl, ?_⟩
  intro kv hkv
  exact absurd hkv (List.not_mem_nil _)

theorem parses_eq_true_iff (E : Collaborators) (d : String) :
    parses E d = true ↔ ∃ pii, parseDescriptor E d = .ok pii := by
  unfold parses
  cases parseDescriptor E d <;> simp

theorem mergeLoop_ok (E : Collaborators) (l : List String) (m : PeerMap)
    (h : ∀ d ∈ l, parses E d = true) :
    mergeLoop E l m = .ok ((parsedInfos E l).foldl mergeStep m) := by
  induction l generalizing m with
  | nil => rfl
  | cons d rest ih =>
    obtain ⟨pii, hp⟩ := (parses_eq_true_iff E d).1 (h d (List.mem_cons_self _ _))
    simp only [mergeLoop, parsedInfos, hp, List.foldl_cons]
    exact ih _ (fun d' hd' => h d' (List.mem_cons_of_mem _ hd'))

theorem mergeLoop_error_iff (E : Collaborators) (l : List String) (m : PeerMap) :
    (∃ err, mergeLoop E l m = .error err) ↔ ∃ d ∈ l, parses E d = false := by
  induction l generalizing m with
  | nil => simp [mergeLoop]
  | cons d rest ih =>
    cases hp : parseDescriptor E d with
    | error e =>
      have : parses E d = false := by simp [parses, hp]
      simp [mergeLoop, hp, this]
    | ok pii =>
      have : parses E d = true := by simp [parses, hp]
      simp [mergeLoop, hp, this, ih]

theorem mergePeers_merged (E : Collaborators) (l : List String)
    (h : ∀ d ∈ l, parses E d = true) :
    ∃ m, mergePeers E l = .ok m ∧ Merged m (parsedInfos E l) := by
  refine ⟨_, mergeLoop_ok E l [] h, ?_⟩
  simpa using foldl_mergeStep_merged (parsedInfos E l) [] [] merged_nil

theorem dialAttempts_append (xs ys : List Event) :
    dialAttempts (xs ++ ys) = dialAttempts xs ++ dialAttempts ys := by
  induction xs with
  | nil => rfl
  | cons e rest ih => cases e <;> simp [dialAttempts, ih]

theorem dialAttempts_dials (api : CoreAPI) (m : PeerMap) :
    dialAttempts ((m.map (fun kv => dial api kv.2)).flatten) = m.map Prod.snd := by
  induction m with
  | nil => rfl
  | cons kv rest ih =>
    simp only [List.map_cons, List.flatten_cons, dialAttempts_append, ih]
    unfold dial
    cases api.Connect kv.2 <;> simp [dialAttempts]

theorem connectToIpfsPeers_ok (E : Collaborators) (i : IpfsClient) (api : CoreAPI)
    (m : PeerMap) (hapi : i.ipfs = some api) (hm : mergePeers E i.bootstrapPeers = .ok m) :
    connectToIpfsPeers E i = (.returned none, (m.map (fun kv => dial api kv.2)).flatten) := by
  unfold connectToIpfsPeers
  rw [hm]
  cases m with
  | nil => rfl
  | cons kv rest => simp [hapi]

theorem merged_attempt_ids (m : PeerMap) (ps : List PeerInfo) (hm : Merged m ps) :
    (m.map Prod.snd).map PeerInfo.ID = m.keys := by
  simp only [PeerMap.keys, List.map_map]
  apply List.map_congr_left
  intro kv hkv
  exact (hm.2.2 kv hkv).1

theorem parsedInfos_length (E : Collaborators) (l : List String)
    (h : ∀ d ∈ l, parses E d = true) : (parsedInfos E l).length = l.length := by
  induction l with
  | nil => rfl
  | cons d rest ih =>
    obtain ⟨pii, hp⟩ := (parses_eq_true_iff E d).1 (h d (List.mem_cons_self _ _))
    simp [parsedInfos, hp, ih (fun d' hd' => h d' (List.mem_cons_of_mem _ hd'))]

theorem parsedInfos_perm (E : Collaborators) {l₁ l₂ : List String} (h : l₁.Perm l₂) :
    (parsedInfos E l₁).Perm (parsedInfos E l₂) := by
  induction h with
  | nil => exact List.Perm.refl _
  | cons d _ ih =>
    simp only [parsedInfos]
    cases parseDescriptor E d with
    | error e => exact ih
    | ok pii => exact List.Perm.cons _ ih
  | swap d₁ d₂ l =>
    simp only [parsedInfos]
    cases parseDescriptor E d₁ <;> cases parseDescriptor E d₂ <;>
      first
        | exact List.Perm.refl _
        | exact List.Perm.swap _ _ _
  | trans _ _ ih₁ ih₂ => exact ih₁.trans ih₂

theorem suppliedAddrs_perm {ps qs : List PeerInfo} (h : ps.Perm qs) (id : PeerID) :
    (suppliedAddrs ps id).Perm (suppliedAddrs qs id) := by
  induction h with
  | nil => exact List.Perm.refl _
  | cons p _ ih =>
    simp only [suppliedAddrs]
    split
    · exact List.Perm.append_left _ ih
    · exact ih
  | swap p q l =>
    simp only [suppliedAddrs]
    split <;> split
    · rw [← List.append_assoc, ← List.append_assoc]
      exact List.Perm.append_right _ List.perm_append_comm
    · exact List.Perm.refl _
    · exact List.Perm.refl _
    · exact List.Perm.refl _
  | trans _ _ ih₁ ih₂ => exact ih₁.trans ih₂

/-- C1: when every descriptor of the bootstrap list parses and the node is
set, `connectToIpfsPeers` issues one `Connect` per distinct peer ID of the
list and no other: the number of attempts is the number of distinct IDs, no ID
is dialled twice, every ID of the list is dialled, and the `PeerInfo` of an
attempt carries the addresses of all occurrences of its ID in the list (in
order of occurrence), so an address is carried exactly when some descriptor
of that ID supplied it. -/
theorem C1_one_dial_per_distinct_peer_with_all_addresses (E : Collaborators) (i : IpfsClient)
    (api : CoreAPI) (hapi : i.ipfs = some api)
    (hparse : ∀ d ∈ i.bootstrapPeers, parses E d = true) :
    (parsedInfos E i.bootstrapPeers).length = i.bootstrapPeers.length ∧
    (dialAttempts (connectToIpfsPeers E i).2).length =
      ((parsedInfos E i.bootstrapPeers).map PeerInfo.ID).dedup.length ∧
    ((dialAttempts (connectToIpfsPeers E i).2).map PeerInfo.ID).Nodup ∧
    (∀ id, id ∈ (dialAttempts (connectToIpfsPeers E i).2).map PeerInfo.ID ↔
      id ∈ (parsedInfos E i.bootstrapPeers).map PeerInfo.ID) ∧
    (∀ pi ∈ dialAttempts (connectToIpfsPeers E i).2,
      pi.Addrs = suppliedAddrs (parsedInfos E i.bootstrapPeers) pi.ID) ∧
    (∀ pi ∈ dialAttempts (connectToIpfsPeers E i).2, ∀ a,
      a ∈ pi.Addrs ↔ ∃ pii ∈ parsedInfos E i.bootstrapPeers, pii.ID = pi.ID ∧ a ∈ pii.Addrs) := by
  obtain ⟨m, hm, hM⟩ := mergePeers_merged E i.bootstrapPeers hparse
  have hatt : dialAttempts (connectToIpfsPeers E i).2 = m.map Prod.snd := by
    rw [connectToIpfsPeers_ok E i api m hapi hm]
    exact dialAttempts_dials api m
  have hids := merged_attempt_ids m _ hM
  have haddrs : ∀ pi ∈ m.map Prod.snd,
      pi.Addrs = suppliedAddrs (parsedInfos E i.bootstrapPeers) pi.ID := by
    intro pi hpi
    obtain ⟨kv, hkv, rfl⟩ := List.mem_map.1 hpi
    obtain ⟨h1, h2⟩ := hM.2.2 kv hkv
    rw [h2, h1]
  rw [hatt, hids]
  refine ⟨parsedInfos_length E _ hparse, ?_, hM.1, hM.2.1, haddrs, ?_⟩
  · have hperm : m.keys.Perm ((parsedInfos E i.bootstrapPeers).map PeerInfo.ID).dedup :=
      (List.perm_ext_iff_of_nodup hM.1 (List.nodup_dedup _)).2
        (fun id => by rw [hM.2.1 id, List.mem_dedup])
    rw [← hperm.length_eq, ← hids]
    simp
  · intro pi hpi a
    rw [haddrs pi hpi, mem_suppliedAddrs]

/-- C1 at scenario C: `QmA` is listed twice with different addresses and `QmB`
once; two attempts are issued and the one for `QmA` carries both addresses. -/
theorem C1_witness :
    sampleClient.ipfs = some sampleNode ∧
    (∀ d ∈ sampleClient.bootstrapPeers, parses sampleCollaborators d = true) ∧
    dialAttempts (connectToIpfsPeers sampleCollaborators sampleClient).2 =
      [ ⟨"QmA", ["/ip4/10.0.0.1/tcp/4001", "/ip4/10.0.0.2/tcp/4001"]⟩,
        ⟨"QmB", ["/ip4/10.0.0.3/tcp/4001"]⟩ ] ∧
    (dialAttempts (connectToIpfsPeers sampleCollaborators sampleClient).2).length =
      ((parsedInfos sampleCollaborators sampleClient.bootstrapPeers).map PeerInfo.ID).dedup.length ∧
    ∀ pi ∈ dialAttempts (connectToIpfsPeers sampleCollaborators sampleClient).2,
      pi.Addrs =
        suppliedAddrs (parsedInfos sampleCollaborators sampleClient.bootstrapPeers) pi.ID :=
  ⟨rfl, by decide, by decide,
    (C1_one_dial_per_distinct_peer_with_all_addresses sampleCollaborators sampleClient
      sampleNode rfl (by decide)).2.1,
    (C1_one_dial_per_distinct_peer_with_all_addresses sampleCollaborators sampleClient
      sampleNode rfl (by decide)).2.2.2.2.1⟩

/-- C2: with the node set, `connectToIpfsPeers` returns an error exactly when
some descriptor of the bootstrap list fails to parse; it then has issued no
dial (and logged nothing); when every descriptor parses it returns nil, for
every behaviour of `Connect`, also when every dial fails; on the empty list it
returns nil with no attempt. -/
theorem C2_error_iff_parse_failure (E : Collaborators) (i : IpfsClient) (api : CoreAPI)
    (hapi : i.ipfs = some api) :
    ((∃ err, (connectToIpfsPeers E i).1 = .returned (some err)) ↔
      ∃ d ∈ i.bootstrapPeers, parses E d = false) ∧
    ((∃ err, (connectToIpfsPeers E i).1 = .returned (some err)) →
      (connectToIpfsPeers E i).2 = []) ∧
    ((∀ d ∈ i.bootstrapPeers, parses E d = true) →
      (connectToIpfsPeers E i).1 = .returned none) ∧
    ((∀ d ∈ i.bootstrapPeers, parses E d = true) → (∀ pi, api.Connect pi ≠ none) →
      (connectToIpfsPeers E i).1 = .returned none) ∧
    (i.bootstrapPeers = [] → connectToIpfsPeers E i = (.returned none, [])) := by
  have key : ∀ err, (connectToIpfsPeers E i).1 = .returned (some err) ↔
      mergePeers E i.bootstrapPeers = .error err := by
    intro err
    unfold connectToIpfsPeers
    cases hm : mergePeers E i.bootstrapPeers with
    | error e => simp
    | ok m =>
      cases m with
      | nil => simp
      | cons kv rest => simp [hapi]
  have hok : (∀ d ∈ i.bootstrapPeers, parses E d = true) →
      (connectToIpfsPeers E i).1 = .returned none := by
    intro h
    obtain ⟨m, hm, _⟩ := mergePeers_merged E i.bootstrapPeers h
    rw [connectToIpfsPeers_ok E i api m hapi hm]
  refine ⟨?_, ?_, hok, fun h _ => hok h, ?_⟩
  · rw [← mergeLoop_error_iff E i.bootstrapPeers []]
    exact exists_congr key
  · rintro ⟨err, h⟩
    have := (key err).1 h
    unfold connectToIpfsPeers
    rw [this]
  · intro h
    simp [connectToIpfsPeers, mergePeers, mergeLoop, h]

/-- C2 on the sample list, where every dial fails: nil is returned. -/
theorem C2_witness :
    sampleClient.ipfs = some sampleNode ∧
    (∀ d ∈ sampleClient.bootstrapPeers, parses sampleCollaborators d = true) ∧
    (∀ pi, sampleNode.Connect pi ≠ none) ∧
    (connectToIpfsPeers sampleCollaborators sampleClient).1 = .returned none :=
  ⟨rfl, by decide, fun _ => by simp [sampleNode],
    (C2_error_iff_parse_failure sampleCollaborators sampleClient sampleNode rfl).2.2.2.1
      (by decide) (fun _ => by simp [sampleNode])⟩

/-- C9: for a list whose descriptors all parse and any permutation of it, the
merge step succeeds on both and gives the same mapping: every key occurs once,
both maps have the same keys (the peer IDs of the list) and the same number
of records, a record is stored under its own ID, and under each ID both maps
hold the same addresses (the same elements with the same multiplicities; only
the order inside the address list may differ). -/
theorem C9_merge_is_order_independent (E : Collaborators) (l₁ l₂ : List String)
    (hperm : l₁.Perm l₂) (hparse : ∀ d ∈ l₁, parses E d = true) :
    ∃ m₁ m₂, mergePeers E l₁ = .ok m₁ ∧ mergePeers E l₂ = .ok m₂ ∧
      m₁.keys.Nodup ∧ m₂.keys.Nodup ∧
      (∀ id, id ∈ m₁.keys ↔ id ∈ m₂.keys) ∧
      (∀ id, id ∈ m₁.keys ↔ id ∈ (parsedInfos E l₁).map PeerInfo.ID) ∧
      m₁.length = m₂.length ∧
      (∀ id, (m₁.lookup id).isSome = (m₂.lookup id).isSome) ∧
      ∀ id p₁ p₂, m₁.lookup id = some p₁ → m₂.lookup id = some p₂ →
        p₁.ID = id ∧ p₂.ID = id ∧ p₁.Addrs.Perm p₂.Addrs ∧
        ∀ a, a ∈ p₁.Addrs ↔ a ∈ p₂.Addrs := by
  have hparse₂ : ∀ d ∈ l₂, parses E d = true := fun d hd => hparse d (hperm.mem_iff.2 hd)
  obtain ⟨m₁, hm₁, hM₁⟩ := mergePeers_merged E l₁ hparse
  obtain ⟨m₂, hm₂, hM₂⟩ := mergePeers_merged E l₂ hparse₂
  have hP := parsedInfos_perm E hperm
  have hkeys : ∀ id, id ∈ m₁.keys ↔ id ∈ m₂.keys := by
    intro id
    rw [hM₁.2.1 id, hM₂.2.1 id]
    exact (hP.map PeerInfo.ID).mem_iff
  have hsome : ∀ (m : PeerMap) (id : PeerID), (m.lookup id).isSome = true ↔ id ∈ m.keys := by
    intro m id
    rw [← not_iff_not, ← lookup_eq_none_iff]
    cases m.lookup id <;> simp
  refine ⟨m₁, m₂, hm₁, hm₂, hM₁.1, hM₂.1, hkeys, hM₁.2.1, ?_, ?_, ?_⟩
  · have := ((List.perm_ext_iff_of_nodup hM₁.1 hM₂.1).2 hkeys).length_eq
    simpa [PeerMap.keys] using this
  · intro id
    rw [Bool.eq_iff_iff, hsome, hsome]
    exact hkeys id
  · intro id p₁ p₂ h₁ h₂
    have e₁ := hM₁.2.2 _ ((lookup_eq_some_iff m₁ hM₁.1 id p₁).1 h₁)
    have e₂ := hM₂.2.2 _ ((lookup_eq_some_iff m₂ hM₂.1 id p₂).1 h₂)
    have hp : p₁.Addrs.Perm p₂.Addrs := by
      rw [e₁.2, e₂.2]
      exact suppliedAddrs_perm hP id
    exact ⟨e₁.1, e₂.1, hp, fun a => hp.mem_iff⟩

/-- C9 on the sample list and its reverse. -/
theorem C9_witness :
    sampleDescriptors.Perm sampleDescriptors.reverse ∧
    (∀ d ∈ sampleDescriptors, parses sampleCollaborators d = true) ∧
    ∃ m₁ m₂, mergePeers sampleCollaborators sampleDescriptors = .ok m₁ ∧
      mergePeers sampleCollaborators sampleDescriptors.reverse = .ok m₂ ∧
      m₁.keys.Nodup ∧ m₂.keys.Nodup ∧
      (∀ id, id ∈ m₁.keys ↔ id ∈ m₂.keys) ∧
      (∀ id, id ∈ m₁.keys ↔
        id ∈ (parsedInfos sampleCollaborators sampleDescriptors).map PeerInfo.ID) ∧
      m₁.length = m₂.length ∧
      (∀ id, (m₁.lookup id).isSome = (m₂.lookup id).isSome) ∧
      ∀ id p₁ p₂, m₁.lookup id = some p₁ → m₂.lookup id = some p₂ →
        p₁.ID = id ∧ p₂.ID = id ∧ p₁.Addrs.Perm p₂.Addrs ∧
        ∀ a, a ∈ p₁.Addrs ↔ a ∈ p₂.Addrs :=
  ⟨(List.reverse_perm _).symm, by decide,
    C9_merge_is_order_independent sampleCollaborators sampleDescriptors
      sampleDescriptors.reverse (List.reverse_perm _).symm (by decide)⟩

/-! ## Retrieval -/

/-- C7: on a ready client holding a node, `OpenFile` calls `Unixfs().Get` on
that node exactly once, with the path built from the identifier, and calls
nothing else; an error of `Get` is returned unchanged with a nil stream; on
success the error is nil and the stream is exactly what `files.ToFile` gives
for the returned node, which is a nil stream when the node is not a file. -/
theorem C7_OpenFile_single_Get_and_error_passthrough (E : Collaborators) (i : IpfsClient)
    (api : CoreAPI) (cidStr : String) (hready : i.ready = true) (hnode : i.ipfs = some api) :
    (OpenFile E i cidStr).2 = [.Get api.name (E.pathNew cidStr)] ∧
    (∀ err, api.Get (E.pathNew cidStr) = .error err →
      (OpenFile E i cidStr).1 = .returned (none, some err)) ∧
    (∀ rootNode, api.Get (E.pathNew cidStr) = .ok rootNode →
      (OpenFile E i cidStr).1 = .returned (E.ToFile rootNode, none)) ∧
    (∀ rootNode file, api.Get (E.pathNew cidStr) = .ok rootNode →
      E.ToFile rootNode = some file →
      (OpenFile E i cidStr).1 = .returned (some file, none)) ∧
    (∀ rootNode, api.Get (E.pathNew cidStr) = .ok rootNode → E.ToFile rootNode = none →
      (OpenFile E i cidStr).1 = .returned (none, none)) := by
  unfold OpenFile waitForReady
  simp only [hready, if_true, hnode]
  cases hg : api.Get (E.pathNew cidStr) with
  | error e => simp
  | ok node =>
    refine ⟨rfl, by simp, by simp, ?_, ?_⟩
    · intro rootNode file h hf
      cases h
      simp [hf]
    · intro rootNode h hf
      cases h
      simp [hf]

/-- C7 on the sample node: a path it does not serve gives its error with a
nil stream, the file it serves gives the converted stream with a nil error,
and the directory it serves gives a nil stream with a nil error. -/
theorem C7_witness :
    (setReady sampleClient).ready = true ∧ (setReady sampleClient).ipfs = some sampleNode ∧
    (OpenFile sampleCollaborators (setReady sampleClient) "QmMissing").2 =
      [.Get "node0" "/ipfs/QmMissing"] ∧
    (OpenFile sampleCollaborators (setReady sampleClient) "QmMissing").1 =
      .returned (none, some "not found") ∧
    (OpenFile sampleCollaborators (setReady sampleClient) "QmFile").1 =
      .returned (some "stream of file-node", none) ∧
    (OpenFile sampleCollaborators (setReady sampleClient) "QmDir").1 =
      .returned (none, none) :=
  ⟨rfl, rfl,
    (C7_OpenFile_single_Get_and_error_passthrough sampleCollaborators (setReady sampleClient)
      sampleNode "QmMissing" rfl rfl).1,
    (C7_OpenFile_single_Get_and_error_passthrough sampleCollaborators (setReady sampleClient)
      sampleNode "QmMissing" rfl rfl).2.1 "not found" (by rfl),
    (C7_OpenFile_single_Get_and_error_passthrough sampleCollaborators (setReady sampleClient)
      sampleNode "QmFile" rfl rfl).2.2.2.1 "file-node" "stream of file-node" (by rfl) (by rfl),
    (C7_OpenFile_single_Get_and_error_passthrough sampleCollaborators (setReady sampleClient)
      sampleNode "QmDir" rfl rfl).2.2.2.2 "dir-node" (by rfl) (by rfl)⟩

/-! ## `Start` run on its own -/

theorem Start_plugins_fail (E : Collaborators) (i : IpfsClient) (err : Err)
    (h : setupIpfsPlugins E i.pluginDir = some err) :
    Start E i =
      { client := i, pc := .exited, repo := "", ctxDone := false, cleanup := .notLaunched,
        events := [.NewPluginLoader (filepathJoin [i.pluginDir, "plugins"]), .Fatal err] } := by
  simp [Start, startBlock, Sys.init, Sys.fatal, h]

theorem Start_repo_fail (E : Collaborators) (i : IpfsClient) (err : Err)
    (h : setupIpfsPlugins E i.pluginDir = none) (hr : createTempIpfsRepo E = .error err) :
    Start E i =
      { client := i, pc := .exited, repo := "", ctxDone := false, cleanup := .notLaunched,
        events := [.NewPluginLoader (filepathJoin [i.pluginDir, "plugins"]),
          .createTempIpfsRepo, .Fatal ("failed to create ipfs repo: " ++ err)] } := by
  simp [Start, startBlock, Sys.init, Sys.fatal, h, hr]

theorem Start_node_fail (E : Collaborators) (i : IpfsClient) (repo : String) (err : Err)
    (h : setupIpfsPlugins E i.pluginDir = none) (hr : createTempIpfsRepo E = .ok repo)
    (hn : createIpfsNode E repo = .error err) :
    Start E i =
      { client := { i with repoPath := repo }, pc := .exited, repo := repo, ctxDone := false,
        cleanup := .waiting,
        events := [.NewPluginLoader (filepathJoin [i.pluginDir, "plugins"]),
          .createTempIpfsRepo, .goCleanupRepo, .createIpfsNode repo,
          .Fatal ("failed to create ipfs node: " ++ err)] } := by
  simp [Start, startBlock, Sys.init, Sys.fatal, h, hr, hn]

theorem Start_parse_fail (E : Collaborators) (i : IpfsClient) (repo : String) (api : CoreAPI)
    (err : Err)
    (h : setupIpfsPlugins E i.pluginDir = none) (hr : createTempIpfsRepo E = .ok repo)
    (hn : createIpfsNode E repo = .ok api) (hm : mergePeers E i.bootstrapPeers = .error err) :
    Start E i =
      { client := { i with repoPath := repo, ipfs := some api }, pc := .exited, repo := repo,
        ctxDone := false, cleanup := .waiting,
        events := [.NewPluginLoader (filepathJoin [i.pluginDir, "plugins"]),
          .createTempIpfsRepo, .goCleanupRepo, .createIpfsNode repo,
          .Fatal ("failed to connect to ipfs peers: " ++ err)] } := by
  simp [Start, startBlock, Sys.init, Sys.fatal, h, hr, hn, connectToIpfsPeers, hm]

theorem Start_ready (E : Collaborators) (i : IpfsClient) (repo : String) (api : CoreAPI)
    (m : PeerMap)
    (h : setupIpfsPlugins E i.pluginDir = none) (hr : createTempIpfsRepo E = .ok repo)
    (hn : createIpfsNode E repo = .ok api) (hm : mergePeers E i.bootstrapPeers = .ok m) :
    Start E i =
      { client := { i with repoPath := repo, ipfs := some api, ready := true },
        pc := .returned, repo := repo, ctxDone := false, cleanup := .waiting,
        events := [.NewPluginLoader (filepathJoin [i.pluginDir, "plugins"]),
          .createTempIpfsRepo, .goCleanupRepo, .createIpfsNode repo] ++
          (m.map (fun kv => dial api kv.2)).flatten ++ [.setReady] } := by
  have hc := connectToIpfsPeers_ok E { i with repoPath := repo, ipfs := some api } api m rfl hm
  simp [Start, startBlock, Sys.init, Sys.fatal, h, hr, hn, hc, setReady]

theorem mergePeers_ok_iff (E : Collaborators) (l : List String) :
    (∃ m, mergePeers E l = .ok m) ↔ ∀ d ∈ l, parses E d = true := by
  constructor
  · rintro ⟨m, hm⟩ d hd
    by_contra hc
    have hf : parses E d = false := by simpa using hc
    obtain ⟨err, he⟩ := (mergeLoop_error_iff E l []).2 ⟨d, hd, hf⟩
    rw [mergePeers, he] at hm
    exact Except.noConfusion hm
  · intro h
    exact ⟨_, mergeLoop_ok E l [] h⟩

theorem loaderPaths_append (xs ys : List Event) :
    loaderPaths (xs ++ ys) = loaderPaths xs ++ loaderPaths ys := by
  induction xs with
  | nil => rfl
  | cons e rest ih => cases e <;> simp [loaderPaths, ih]

theorem loaderPaths_dials (api : CoreAPI) (m : PeerMap) :
    loaderPaths ((m.map (fun kv => dial api kv.2)).flatten) = [] := by
  induction m with
  | nil => rfl
  | cons kv rest ih =>
    simp only [List.map_cons, List.flatten_cons, loaderPaths_append, ih]
    unfold dial
    cases api.Connect kv.2 <;> simp [loaderPaths]

/-- The five ways in which `Start` can end, with the state it ends in. -/
theorem Start_cases (E : Collaborators) (i : IpfsClient) :
    (∃ err, setupIpfsPlugins E i.pluginDir = some err) ∨
    (setupIpfsPlugins E i.pluginDir = none ∧ ∃ err, createTempIpfsRepo E = .error err) ∨
    (setupIpfsPlugins E i.pluginDir = none ∧ ∃ repo err, createTempIpfsRepo E = .ok repo ∧
      createIpfsNode E repo = .error err) ∨
    (setupIpfsPlugins E i.pluginDir = none ∧ ∃ repo api err, createTempIpfsRepo E = .ok repo ∧
      createIpfsNode E repo = .ok api ∧ mergePeers E i.bootstrapPeers = .error err) ∨
    (setupIpfsPlugins E i.pluginDir = none ∧ ∃ repo api m, createTempIpfsRepo E = .ok repo ∧
      createIpfsNode E repo = .ok api ∧ mergePeers E i.bootstrapPeers = .ok m) := by
  cases h : setupIpfsPlugins E i.pluginDir with
  | some err => exact Or.inl ⟨err, rfl⟩
  | none =>
    cases hr : createTempIpfsRepo E with
    | error err => exact Or.inr (Or.inl ⟨rfl, err, rfl⟩)
    | ok repo =>
      cases hn : createIpfsNode E repo with
      | error err => exact Or.inr (Or.inr (Or.inl ⟨rfl, repo, err, rfl, hn⟩))
      | ok api =>
        cases hm : mergePeers E i.bootstrapPeers with
        | error err => exact Or.inr (Or.inr (Or.inr (Or.inl ⟨rfl, repo, api, err, rfl, hn, rfl⟩)))
        | ok m => exact Or.inr (Or.inr (Or.inr (Or.inr ⟨rfl, repo, api, m, rfl, hn, rfl⟩)))

theorem startSucceeds_iff (E : Collaborators) (i : IpfsClient) :
    startSucceeds E i ↔
      (setupIpfsPlugins E i.pluginDir = none ∧ ∃ repo api m, createTempIpfsRepo E = .ok repo ∧
        createIpfsNode E repo = .ok api ∧ mergePeers E i.bootstrapPeers = .ok m) := by
  unfold startSucceeds
  rw [← mergePeers_ok_iff]
  constructor
  · rintro ⟨h, ⟨repo, hr, api, hn⟩, m, hm⟩
    exact ⟨h, repo, api, m, hr, hn, hm⟩
  · rintro ⟨h, repo, api, m, hr, hn, hm⟩
    exact ⟨h, ⟨repo, hr, api, hn⟩, m, hm⟩

/-- C4: for a client that is not ready, `Start` reaches `i.setReady()` (and
returns with `ready` set) exactly when plugin setup, repository creation, node
construction and the parsing of every bootstrap descriptor succeed. Otherwise
it ends in `log.Fatal` with `ready` still false and without the signal, and
the calls made are those up to the failing step only: nothing after a failed
plugin setup, no cleanup goroutine and no node after a failed repository
creation, no dial after a failed node construction or a descriptor that does
not parse. When the four steps succeed the signal is given whatever `Connect`
returns. -/
theorem C4_Start_ready_iff_startup_steps_succeed (E : Collaborators) (i : IpfsClient)
    (hi : i.ready = false) :
    ((Event.setReady ∈ (Start E i).events ∧ (Start E i).pc = .returned ∧
        (Start E i).client.ready = true) ↔ startSucceeds E i) ∧
    (¬ startSucceeds E i →
      (Start E i).pc = .exited ∧ (Start E i).client.ready = false ∧
      Event.setReady ∉ (Start E i).events ∧
      ∃ msg, (Start E i).events.getLast? = some (.Fatal msg)) ∧
    (∀ err, setupIpfsPlugins E i.pluginDir = some err →
      (Start E i).events =
        [.NewPluginLoader (filepathJoin [i.pluginDir, "plugins"]), .Fatal err]) ∧
    (∀ err, setupIpfsPlugins E i.pluginDir = none → createTempIpfsRepo E = .error err →
      (Start E i).events =
        [.NewPluginLoader (filepathJoin [i.pluginDir, "plugins"]), .createTempIpfsRepo,
          .Fatal ("failed to create ipfs repo: " ++ err)]) ∧
    (∀ repo err, setupIpfsPlugins E i.pluginDir = none → createTempIpfsRepo E = .ok repo →
      createIpfsNode E repo = .error err →
      (Start E i).events =
        [.NewPluginLoader (filepathJoin [i.pluginDir, "plugins"]), .createTempIpfsRepo,
          .goCleanupRepo, .createIpfsNode repo,
          .Fatal ("failed to create ipfs node: " ++ err)]) ∧
    (∀ repo api d, setupIpfsPlugins E i.pluginDir = none → createTempIpfsRepo E = .ok repo →
      createIpfsNode E repo = .ok api → d ∈ i.bootstrapPeers → parses E d = false →
      ∃ err, (Start E i).events =
        [.NewPluginLoader (filepathJoin [i.pluginDir, "plugins"]), .createTempIpfsRepo,
          .goCleanupRepo, .createIpfsNode repo,
          .Fatal ("failed to connect to ipfs peers: " ++ err)]) ∧
    (∀ repo api, setupIpfsPlugins E i.pluginDir = none → createTempIpfsRepo E = .ok repo →
      createIpfsNode E repo = .ok api → (∀ d ∈ i.bootstrapPeers, parses E d = true) →
      ∃ m, mergePeers E i.bootstrapPeers = .ok m ∧
        (Start E i).events =
          [.NewPluginLoader (filepathJoin [i.pluginDir, "plugins"]), .createTempIpfsRepo,
            .goCleanupRepo, .createIpfsNode repo] ++
            (m.map (fun kv => dial api kv.2)).flatten ++ [.setReady] ∧
        (Start E i).client.ready = true ∧ (Start E i).pc = .returned) := by
  have hmain : ((Event.setReady ∈ (Start E i).events ∧ (Start E i).pc = .returned ∧
        (Start E i).client.ready = true) ↔ startSucceeds E i) ∧
      (¬ startSucceeds E i →
        (Start E i).pc = .exited ∧ (Start E i).client.ready = false ∧
        Event.setReady ∉ (Start E i).events ∧
        ∃ msg, (Start E i).events.getLast? = some (.Fatal msg)) := by
    rw [startSucceeds_iff]
    rcases Start_cases E i with ⟨err, h⟩ | ⟨h, err, hr⟩ | ⟨h, repo, err, hr, hn⟩ |
      ⟨h, repo, api, err, hr, hn, hm⟩ | ⟨h, repo, api, m, hr, hn, hm⟩
    · rw [Start_plugins_fail E i err h]
      simp [h, hi]
    · rw [Start_repo_fail E i err h hr]
      simp [h, hr, hi]
    · rw [Start_node_fail E i repo err h hr hn]
      simp [h, hr, hn, hi]
    · rw [Start_parse_fail E i repo api err h hr hn hm]
      simp [h, hr, hn, hm, hi]
    · rw [Start_ready E i repo api m h hr hn hm]
      simp [h, hr, hn, hm]
  refine ⟨hmain.1, hmain.2, ?_, ?_, ?_, ?_, ?_⟩
  · intro err h
    rw [Start_plugins_fail E i err h]
  · intro err h hr
    rw [Start_repo_fail E i err h hr]
  · intro repo err h hr hn
    rw [Start_node_fail E i repo err h hr hn]
  · intro repo api d h hr hn hd hp
    obtain ⟨err, hm⟩ := (mergeLoop_error_iff E i.bootstrapPeers []).2 ⟨d, hd, hp⟩
    exact ⟨err, by rw [Start_parse_fail E i repo api err h hr hn hm]⟩
  · intro repo api h hr hn hp
    obtain ⟨m, hm⟩ := (mergePeers_ok_iff E i.bootstrapPeers).2 hp
    refine ⟨m, hm, ?_⟩
    rw [Start_ready E i repo api m h hr hn hm]
    exact ⟨rfl, rfl, rfl⟩

/-- C4 on the sample collaborators, where every startup step succeeds and
every dial fails: the signal is reached. With the malformed descriptor of
scenario B `Start` ends in `log.Fatal` before any dial. -/
theorem C4_witness :
    (NewIpfsClient [WithBootstrapPeers sampleDescriptors]).ready = false ∧
    startSucceeds sampleCollaborators (NewIpfsClient [WithBootstrapPeers sampleDescriptors]) ∧
    (Start sampleCollaborators (NewIpfsClient [WithBootstrapPeers sampleDescriptors])).client.ready
      = true ∧
    ¬ startSucceeds sampleCollaborators (NewIpfsClient [WithBootstrapPeers ["garbage"]]) ∧
    (Start sampleCollaborators (NewIpfsClient [WithBootstrapPeers ["garbage"]])).pc = .exited :=
  have hs : startSucceeds sampleCollaborators
      (NewIpfsClient [WithBootstrapPeers sampleDescriptors]) :=
    ⟨rfl, ⟨"/tmp/cfsync123", rfl, sampleNode, rfl⟩, by decide⟩
  have hn : ¬ startSucceeds sampleCollaborators
      (NewIpfsClient [WithBootstrapPeers ["garbage"]]) :=
    fun h => absurd (h.2.2 "garbage" (List.mem_singleton.2 rfl)) (by decide)
  ⟨rfl, hs,
    ((C4_Start_ready_iff_startup_steps_succeed sampleCollaborators
      (NewIpfsClient [WithBootstrapPeers sampleDescriptors]) rfl).1.2 hs).2.2,
    hn,
    ((C4_Start_ready_iff_startup_steps_succeed sampleCollaborators
      (NewIpfsClient [WithBootstrapPeers ["garbage"]]) rfl).2.1 hn).1⟩

/-- C8: the path `Start` hands to `loader.NewPluginLoader` is
`filepath.Join(pluginDir, "plugins")`, not the configured directory; the
loader is called once, as the first call of `Start`. A client built without
`WithPluginDir` hands it the relative path `plugins`, and a client configured
with `/opt/ipfs` hands it `/opt/ipfs/plugins`. -/
theorem C8_loader_receives_plugins_subdirectory (E : Collaborators) (i : IpfsClient) :
    loaderPaths (Start E i).events = [filepathJoin [i.pluginDir, "plugins"]] ∧
    (Start E i).events.head? = some (.NewPluginLoader (filepathJoin [i.pluginDir, "plugins"])) ∧
    loaderPaths (Start E (NewIpfsClient [])).events = ["plugins"] ∧
    (NewIpfsClient []).pluginDir = "" ∧
    loaderPaths (Start E (NewIpfsClient [WithPluginDir "/opt/ipfs"])).events =
      ["/opt/ipfs/plugins"] ∧
    (NewIpfsClient [WithPluginDir "/opt/ipfs"]).pluginDir = "/opt/ipfs" := by
  have hgen : ∀ c : IpfsClient,
      loaderPaths (Start E c).events = [filepathJoin [c.pluginDir, "plugins"]] ∧
      (Start E c).events.head? =
        some (.NewPluginLoader (filepathJoin [c.pluginDir, "plugins"])) := by
    intro c
    rcases Start_cases E c with ⟨err, h⟩ | ⟨h, err, hr⟩ | ⟨h, repo, err, hr, hn⟩ |
      ⟨h, repo, api, err, hr, hn, hm⟩ | ⟨h, repo, api, m, hr, hn, hm⟩
    · rw [Start_plugins_fail E c err h]; simp [loaderPaths]
    · rw [Start_repo_fail E c err h hr]; simp [loaderPaths]
    · rw [Start_node_fail E c repo err h hr hn]; simp [loaderPaths]
    · rw [Start_parse_fail E c repo api err h hr hn hm]; simp [loaderPaths]
    · rw [Start_ready E c repo api m h hr hn hm]
      simp [loaderPaths, loaderPaths_append, loaderPaths_dials]
  refine ⟨(hgen i).1, (hgen i).2, ?_, rfl, ?_, rfl⟩
  · rw [(hgen _).1]; decide
  · rw [(hgen _).1]; decide

/-! ## The run of `Start` with its context and cleanup goroutine -/

theorem deletions_append (xs ys : List Event) :
    deletions (xs ++ ys) = deletions xs ++ deletions ys := by
  induction xs with
  | nil => rfl
  | cons e rest ih => cases e <;> simp [deletions, ih]

theorem deletions_dials (api : CoreAPI) (m : PeerMap) :
    deletions ((m.map (fun kv => dial api kv.2)).flatten) = [] := by
  induction m with
  | nil => rfl
  | cons kv rest ih =>
    simp only [List.map_cons, List.flatten_cons, deletions_append, ih]
    unfold dial
    cases api.Connect kv.2 <;> simp [deletions]

theorem deletions_connect (E : Collaborators) (i : IpfsClient) :
    deletions (connectToIpfsPeers E i).2 = [] := by
  unfold connectToIpfsPeers
  cases mergePeers E i.bootstrapPeers with
  | error e => rfl
  | ok m =>
    cases m with
    | nil => rfl
    | cons kv rest =>
      cases hi : i.ipfs with
      | none => rfl
      | some api => exact deletions_dials api (kv :: rest)

theorem inv_init (E : Collaborators) (i : IpfsClient) : Inv E i.ready (Sys.init i) := by
  simp [Inv, Sys.init, deletions]

theorem startBlock_inv (E : Collaborators) (ready₀ : Bool) (s : Sys) (h : Inv E ready₀ s) :
    Inv E ready₀ (startBlock E s) := by
  have h' := h
  obtain ⟨h1, h2, h3, h4, h5, h6, h7, h8⟩ := h'
  unfold startBlock
  cases hpc : s.pc with
  | plugins =>
    simp only [hpc] at *
    cases setupIpfsPlugins E s.client.pluginDir <;>
      simp_all [Inv, Sys.fatal, deletions_append, deletions]
  | repo =>
    simp only [hpc] at *
    cases hr : createTempIpfsRepo E <;>
      simp_all [Inv, Sys.fatal, deletions_append, deletions]
  | node =>
    simp only [hpc] at *
    cases hn : createIpfsNode E s.repo <;>
      simp_all [Inv, Sys.fatal, deletions_append, deletions]
  | connect =>
    simp only [hpc] at *
    have hd := deletions_connect E s.client
    generalize connectToIpfsPeers E s.client = r at hd
    obtain ⟨o, calls⟩ := r
    cases o with
    | returned v => cases v <;> simp_all [Inv, Sys.fatal, deletions_append, deletions]
    | nilDereference => simp_all [Inv, Sys.fatal, deletions_append, deletions]
    | blocked => simp_all [Inv, Sys.fatal, deletions_append, deletions]
  | signal =>
    simp only [hpc] at *
    simp_all [Inv, setReady, deletions_append, deletions]
  | returned => exact h
  | exited => exact h

theorem step_inv (E : Collaborators) (ready₀ : Bool) (a : Action) (s s' : Sys)
    (h : Inv E ready₀ s) (hs : step E a s = some s') : Inv E ready₀ s' := by
  unfold step at hs
  split at hs
  · exact Option.noConfusion hs
  · cases a with
    | start =>
      simp only at hs
      split at hs
      · exact Option.noConfusion hs
      · cases hs
        exact startBlock_inv E ready₀ s h
    | cancel =>
      simp only [Option.some.injEq] at hs
      subst hs
      obtain ⟨h1, h2, h3, h4, h5, h6, h7, h8⟩ := h
      exact ⟨h1, h2, h3, h4, h5, fun _ => rfl, h7, h8⟩
    | cleanupWake =>
      simp only at hs
      split at hs
      · rename_i hc
        cases hs
        obtain ⟨h1, h2, h3, h4, h5, h6, h7, h8⟩ := h
        simp_all [Inv]
      · exact Option.noConfusion hs
    | cleanupRemove =>
      simp only at hs
      split at hs
      · rename_i hc
        cases hs
        obtain ⟨h1, h2, h3, h4, h5, h6, h7, h8⟩ := h
        simp_all [Inv, deletions_append, deletions]
      · exact Option.noConfusion hs

theorem run_inv (E : Collaborators) (ready₀ : Bool) (acts : List Action) (s : Sys)
    (h : Inv E ready₀ s) : Inv E ready₀ (run E acts s) := by
  induction acts generalizing s with
  | nil => exact h
  | cons a rest ih =>
    simp only [run]
    cases hs : step E a s with
    | none => exact ih s h
    | some s' => exact ih s' (step_inv E ready₀ a s s' h hs)

theorem step_start_getD (E : Collaborators) (s : Sys) :
    (step E .start s).getD s = startBlock E s := by
  unfold step
  cases hpc : s.pc <;> simp [startBlock, hpc]

theorem Start_eq_run (E : Collaborators) (i : IpfsClient) :
    Start E i = run E [.start, .start, .start, .start, .start] (Sys.init i) := by
  simp [run, step_start_getD, Start]

theorem run_append (E : Collaborators) (xs ys : List Action) (s : Sys) :
    run E (xs ++ ys) s = run E ys (run E xs s) := by
  induction xs generalizing s with
  | nil => rfl
  | cons a rest ih => simp [run, ih]

theorem run_exited (E : Collaborators) (acts : List Action) (s : Sys) (h : s.pc = .exited) :
    run E acts s = s := by
  induction acts with
  | nil => rfl
  | cons a rest ih => simp [run, step, h, ih]

theorem reachable_inv (E : Collaborators) (i : IpfsClient) (s : Sys)
    (h : Reachable E i s) : Inv E i.ready s := by
  obtain ⟨acts, rfl⟩ := h
  exact run_inv E i.ready acts _ (inv_init E i)

/-- C10: in every state that a single run of `Start` on a client made by
`NewIpfsClient` can reach, under any schedule of cancellation and cleanup,
`ready = true` implies that the repository was created and the node was
constructed by this run and that `repoPath` and `ipfs` hold them; so
`waitForReady` returns and the `Get` of `OpenFile` is made on that node, never
on a nil handle. -/
theorem C10_ready_implies_node_and_repo_assigned (E : Collaborators)
    (options : List OptionSpec) (s : Sys)
    (hreach : Reachable E (NewIpfsClient (options.map OptionSpec.toOption)) s)
    (hready : s.client.ready = true) :
    ∃ repo api, createTempIpfsRepo E = .ok repo ∧ createIpfsNode E repo = .ok api ∧
      s.client.repoPath = repo ∧ s.client.ipfs = some api ∧
      waitForReady s.client = .returned () ∧
      ∀ cidStr, (OpenFile E s.client cidStr).2 = [.Get api.name (E.pathNew cidStr)] ∧
        ∃ result, (OpenFile E s.client cidStr).1 = .returned result := by
  have hinv := reachable_inv E _ s hreach
  have h0 : (NewIpfsClient (options.map OptionSpec.toOption)).ready = false :=
    (NewIpfsClient_specs_ready options)
  rw [h0] at hinv
  obtain ⟨h1, h2, h3, h4, h5, h6, h7, h8⟩ := hinv
  have hpc : s.pc = .returned := by
    by_contra hc
    rw [h1 hc] at hready
    exact Bool.noConfusion hready
  obtain ⟨api, hn, hi⟩ := h5 (Or.inr (Or.inr hpc))
  obtain ⟨hr, hp⟩ := h4 (h3 (Or.inr (Or.inr (Or.inr hpc))))
  refine ⟨s.repo, api, hr, hn, hp, hi, ?_, ?_⟩
  · simp [waitForReady, hready]
  · intro cidStr
    unfold OpenFile waitForReady
    simp only [hready, if_true, hi]
    cases api.Get (E.pathNew cidStr) <;> simp

/-- C10 on the sample collaborators: after the five blocks of `Start`, with a
cancellation in between, the client is ready and holds the node. -/
theorem C10_witness :
    Reachable sampleCollaborators
      (NewIpfsClient ([OptionSpec.bootstrapPeers sampleDescriptors].map OptionSpec.toOption))
      (run sampleCollaborators [.start, .start, .cancel, .start, .start, .start]
        (Sys.init (NewIpfsClient
          ([OptionSpec.bootstrapPeers sampleDescriptors].map OptionSpec.toOption)))) ∧
    (run sampleCollaborators [.start, .start, .cancel, .start, .start, .start]
        (Sys.init (NewIpfsClient
          ([OptionSpec.bootstrapPeers sampleDescriptors].map OptionSpec.toOption)))).client.ready
      = true ∧
    ∃ repo api, createTempIpfsRepo sampleCollaborators = .ok repo ∧
      createIpfsNode sampleCollaborators repo = .ok api ∧
      (run sampleCollaborators [.start, .start, .cancel, .start, .start, .start]
        (Sys.init (NewIpfsClient
          ([OptionSpec.bootstrapPeers sampleDescriptors].map
            OptionSpec.toOption)))).client.repoPath = repo :=
  ⟨⟨_, rfl⟩, by decide,
    (C10_ready_implies_node_and_repo_assigned sampleCollaborators
      [OptionSpec.bootstrapPeers sampleDescriptors] _ ⟨_, rfl⟩ (by decide)).imp
      (fun _ h => h.imp (fun _ h' => ⟨h'.1, h'.2.1, h'.2.2.1⟩))⟩

theorem startBlock_deletions (E : Collaborators) (s : Sys) :
    deletions (startBlock E s).events = deletions s.events := by
  unfold startBlock
  cases hpc : s.pc with
  | plugins =>
    simp only
    cases setupIpfsPlugins E s.client.pluginDir <;>
      simp [Sys.fatal, deletions_append, deletions]
  | repo =>
    simp only
    cases createTempIpfsRepo E <;> simp [Sys.fatal, deletions_append, deletions]
  | node =>
    simp only
    cases createIpfsNode E s.repo <;> simp [Sys.fatal, deletions_append, deletions]
  | connect =>
    simp only
    have hd := deletions_connect E s.client
    generalize connectToIpfsPeers E s.client = r at hd
    obtain ⟨o, calls⟩ := r
    cases o with
    | returned v => cases v <;> simp_all [Sys.fatal, deletions_append, deletions]
    | nilDereference => simp_all [deletions_append]
    | blocked => simp_all [deletions_append]
  | signal => simp [deletions_append, deletions]
  | returned => rfl
  | exited => rfl

theorem step_cleanup_finished (E : Collaborators) (ready₀ : Bool) (a : Action) (s s' : Sys)
    (h : Inv E ready₀ s) (hs : step E a s = some s') (hf : s.cleanup = .finished) :
    s'.cleanup = .finished := by
  unfold step at hs
  split at hs
  · exact Option.noConfusion hs
  · cases a with
    | start =>
      simp only at hs
      split at hs
      · exact Option.noConfusion hs
      · cases hs
        obtain ⟨h1, h2, h3, h4, h5, h6, h7, h8⟩ := h
        unfold startBlock
        cases hpc : s.pc with
        | plugins => simp_all
        | repo => simp_all
        | node =>
          simp only
          cases createIpfsNode E s.repo <;> simp [Sys.fatal, hf]
        | connect =>
          simp only
          generalize connectToIpfsPeers E s.client = r
          obtain ⟨o, calls⟩ := r
          cases o with
          | returned v => cases v <;> simp [Sys.fatal, hf]
          | nilDereference => simp [hf]
          | blocked => simp [hf]
        | signal => simp [hf]
        | returned => exact hf
        | exited => exact hf
    | cancel =>
      simp only [Option.some.injEq] at hs
      subst hs
      exact hf
    | cleanupWake =>
      simp only [hf] at hs
      simp at hs
    | cleanupRemove =>
      simp only [hf] at hs
      simp at hs

theorem run_cleanup_finished (E : Collaborators) (ready₀ : Bool) (acts : List Action) (s : Sys)
    (h : Inv E ready₀ s) (hf : s.cleanup = .finished) :
    (run E acts s).cleanup = .finished := by
  induction acts generalizing s with
  | nil => exact hf
  | cons a rest ih =>
    simp only [run]
    cases hs : step E a s with
    | none => exact ih s h hf
    | some s' =>
      exact ih s' (step_inv E ready₀ a s s' h hs) (step_cleanup_finished E ready₀ a s s' h hs hf)

/-- C5, as the code has it: in every state of a single run of `Start` whose
repository creation succeeds, the repository has been deleted at most once and
the deleted path is the one `createTempIpfsRepo` returned; a deletion is made
only by the cleanup goroutine, in a state whose context is already cancelled
and in which nothing was deleted yet, never by a block of `Start`; once the
cleanup goroutine is launched, the context is cancelled and the process is
still running, letting the goroutine run gives exactly one deletion; and after
the deletion no schedule deletes again. -/
theorem C5_repo_deleted_at_most_once_and_only_after_cancel (E : Collaborators)
    (i : IpfsClient) (repo : String) (s : Sys)
    (hrepo : createTempIpfsRepo E = .ok repo) (hreach : Reachable E i s) :
    (deletions s.events = [] ∨ deletions s.events = [repo]) ∧
    (deletions s.events ≠ [] → s.ctxDone = true) ∧
    (∀ a s', step E a s = some s' → deletions s'.events ≠ deletions s.events →
      a = .cleanupRemove ∧ s.ctxDone = true ∧ deletions s.events = [] ∧
      deletions s'.events = [repo]) ∧
    (s.cleanup ≠ .notLaunched → s.pc ≠ .exited → s.ctxDone = true →
      deletions (run E [.cleanupWake, .cleanupRemove] s).events = [repo]) ∧
    (deletions s.events = [repo] → ∀ more, deletions (run E more s).events = [repo]) := by
  have hinv := reachable_inv E i s hreach
  obtain ⟨h1, h2, h3, h4, h5, h6, h7, h8⟩ := hinv
  have hpath : s.cleanup ≠ .notLaunched → s.client.repoPath = repo := by
    intro hc
    obtain ⟨hr, hp⟩ := h4 hc
    rw [hrepo] at hr
    rw [hp]
    exact (Except.ok.inj hr).symm
  have hfin : s.cleanup = .finished → deletions s.events = [repo] := by
    intro hf
    rw [h7 hf, hpath (by rw [hf]; exact fun h => Cleanup.noConfusion h)]
  refine ⟨?_, ?_, ?_, ?_, ?_⟩
  · by_cases hf : s.cleanup = .finished
    · exact Or.inr (hfin hf)
    · exact Or.inl (h8 hf)
  · intro hne
    by_cases hf : s.cleanup = .finished
    · exact h6 (Or.inr hf)
    · exact absurd (h8 hf) hne
  · intro a s' hs hne
    unfold step at hs
    split at hs
    · exact Option.noConfusion hs
    · cases a with
      | start =>
        simp only at hs
        split at hs
        · exact Option.noConfusion hs
        · cases hs
          exact absurd (startBlock_deletions E s) hne
      | cancel =>
        simp only [Option.some.injEq] at hs
        subst hs
        exact absurd rfl hne
      | cleanupWake =>
        simp only at hs
        split at hs
        · cases hs
          exact absurd rfl hne
        · exact Option.noConfusion hs
      | cleanupRemove =>
        simp only at hs
        split at hs
        · rename_i hw
          cases hs
          have hnl : s.cleanup ≠ .notLaunched := by
            rw [hw]; exact fun h => Cleanup.noConfusion h
          have hnf : s.cleanup ≠ .finished := by
            rw [hw]; exact fun h => Cleanup.noConfusion h
          refine ⟨rfl, h6 (Or.inl hw), h8 hnf, ?_⟩
          simp [deletions_append, deletions, h8 hnf, hpath hnl]
        · exact Option.noConfusion hs
  · intro hnl hpc hctx
    have hp := hpath hnl
    have hnf := h8
    cases hc : s.cleanup with
    | notLaunched => exact absurd hc hnl
    | waiting =>
      have := h8 (by rw [hc]; exact fun h => Cleanup.noConfusion h)
      simp [run, step, hpc, hc, hctx, deletions_append, deletions, this, hp]
    | woken =>
      have := h8 (by rw [hc]; exact fun h => Cleanup.noConfusion h)
      simp [run, step, hpc, hc, deletions_append, deletions, this, hp]
    | finished =>
      simp [run, step, hpc, hc, hfin hc]
  · intro hd more
    have hf : s.cleanup = .finished := by
      by_contra hc
      rw [h8 hc] at hd
      exact List.noConfusion hd
    have hinv' := run_inv E i.ready more s ⟨h1, h2, h3, h4, h5, h6, h7, h8⟩
    have hf' := run_cleanup_finished E i.ready more s ⟨h1, h2, h3, h4, h5, h6, h7, h8⟩ hf
    obtain ⟨_, _, _, g4, _, _, g7, _⟩ := hinv'
    obtain ⟨hr, hp⟩ := g4 (by rw [hf']; exact fun h => Cleanup.noConfusion h)
    rw [hrepo] at hr
    rw [g7 hf', hp]
    exact congrArg (fun x => [x]) (Except.ok.inj hr).symm

/-- C5 on the sample collaborators: the context is cancelled while `Start`
runs; the goroutine then deletes the repository once, after `Start` returned. -/
theorem C5_witness :
    createTempIpfsRepo sampleCollaborators = .ok "/tmp/cfsync123" ∧
    Reachable sampleCollaborators sampleClient
      (run sampleCollaborators [.start, .start, .start, .cancel, .start, .start]
        (Sys.init sampleClient)) ∧
    deletions (run sampleCollaborators [.start, .start, .start, .cancel, .start, .start]
        (Sys.init sampleClient)).events = [] ∧
    deletions (run sampleCollaborators [.cleanupWake, .cleanupRemove]
      (run sampleCollaborators [.start, .start, .start, .cancel, .start, .start]
        (Sys.init sampleClient))).events = ["/tmp/cfsync123"] :=
  ⟨rfl, ⟨_, rfl⟩, by decide,
    (C5_repo_deleted_at_most_once_and_only_after_cancel sampleCollaborators sampleClient
      "/tmp/cfsync123" _ rfl ⟨_, rfl⟩).2.2.2.1 (by decide) (by decide) (by decide)⟩

/-- C5 as stated fails: when node construction fails after the repository was
created, `Start` ends the process with the cleanup goroutine still waiting;
the repository is never deleted, whatever happens afterwards, also when the
context is cancelled. And a run that is never cancelled returns without any
deletion. -/
theorem C5_counterexample :
    createTempIpfsRepo nodeFailsCollaborators = .ok "/tmp/cfsync123" ∧
    (Start nodeFailsCollaborators (NewIpfsClient [])).pc = .exited ∧
    (Start nodeFailsCollaborators (NewIpfsClient [])).cleanup = .waiting ∧
    (Start nodeFailsCollaborators (NewIpfsClient [])).client.repoPath = "/tmp/cfsync123" ∧
    deletions (Start nodeFailsCollaborators (NewIpfsClient [])).events = [] ∧
    deletions (run nodeFailsCollaborators
      [.start, .start, .start, .cancel, .cleanupWake, .cleanupRemove]
      (Sys.init (NewIpfsClient []))).events = [] ∧
    (∀ acts, deletions (run nodeFailsCollaborators acts
      (Start nodeFailsCollaborators (NewIpfsClient []))).events = []) ∧
    (Start sampleCollaborators sampleClient).pc = .returned ∧
    deletions (Start sampleCollaborators sampleClient).events = [] := by
  refine ⟨rfl, by decide, by decide, by decide, by decide, by decide, ?_, by decide, by decide⟩
  intro acts
  rw [run_exited nodeFailsCollaborators acts _ (by decide)]
  decide

/-! ## Readiness over sequences of operations -/

theorem startBlock_ready (E : Collaborators) (s : Sys) :
    (startBlock E s).client.ready = s.client.ready ∨
      (s.pc = .signal ∧ (startBlock E s).client = setReady s.client) := by
  unfold startBlock
  cases hpc : s.pc with
  | plugins =>
    simp only
    cases setupIpfsPlugins E s.client.pluginDir <;> simp [Sys.fatal]
  | repo =>
    simp only
    cases createTempIpfsRepo E <;> simp [Sys.fatal]
  | node =>
    simp only
    cases createIpfsNode E s.repo <;> simp [Sys.fatal]
  | connect =>
    simp only
    generalize connectToIpfsPeers E s.client = r
    obtain ⟨o, calls⟩ := r
    cases o with
    | returned v => cases v <;> simp [Sys.fatal]
    | nilDereference => simp
    | blocked => simp
  | signal => exact Or.inr ⟨rfl, rfl⟩
  | returned => exact Or.inl rfl
  | exited => exact Or.inl rfl

theorem applyToClient_ready (E : Collaborators) (op : ClientOp) (s : Sys) :
    (applyToClient E op s).client.ready = s.client.ready ∨
      ((applyToClient E op s).client = setReady s.client ∧
        ((∃ n, op = .setReady n) ∨ ((∃ n, op = .sched n .start) ∧ s.pc = .signal))) := by
  cases op with
  | NewIpfsClient options => exact Or.inl rfl
  | sched n a =>
    cases a with
    | start =>
      simp only [applyToClient, step_start_getD]
      rcases startBlock_ready E s with h | ⟨h1, h2⟩
      · exact Or.inl h
      · exact Or.inr ⟨h2, Or.inr ⟨⟨n, rfl⟩, h1⟩⟩
    | cancel =>
      left
      simp only [applyToClient, step]
      split <;> rfl
    | cleanupWake =>
      left
      simp only [applyToClient, step]
      split
      · rfl
      · split <;> rfl
    | cleanupRemove =>
      left
      simp only [applyToClient, step]
      split
      · rfl
      · split <;> rfl
  | setReady n => exact Or.inr ⟨rfl, Or.inl ⟨n, rfl⟩⟩
  | waitForReady n => exact Or.inl rfl
  | OpenFile n cidStr => exact Or.inl rfl

theorem updateAt_getElem? (f : Sys → Sys) (n k : Nat) (w : List Sys) :
    (updateAt f n w)[k]? = if k = n then (w[k]?).map f else w[k]? := by
  induction w generalizing n k with
  | nil => cases n <;> simp [updateAt]
  | cons s rest ih =>
    cases n with
    | zero =>
      cases k with
      | zero => simp [updateAt]
      | succ k => simp [updateAt]
    | succ n =>
      cases k with
      | zero => simp [updateAt]
      | succ k => simp [updateAt, ih]

/-- What one operation does to the client at position `k`: nothing, or the
effect of the operation when it is aimed at `k`. -/
theorem applyOp_getElem? (E : Collaborators) (op : ClientOp) (w : List Sys) (k : Nat)
    (s : Sys) (hs : w[k]? = some s) :
    (applyOp E op w)[k]? = some s ∨
      ((applyOp E op w)[k]? = some (applyToClient E op s) ∧
        ∀ n, (op = .setReady n ∨ op = .sched n .start) → n = k) := by
  unfold applyOp
  split
  · exact Or.inl hs
  · have hk : k < w.length := by
      by_contra hc
      rw [List.getElem?_eq_none (Nat.le_of_not_lt hc)] at hs
      exact Option.noConfusion hs
    cases op with
    | NewIpfsClient options =>
      left
      simp only
      rw [List.getElem?_append_left hk]
      exact hs
    | sched n a =>
      simp only [updateAt_getElem?]
      by_cases h : k = n
      · subst h
        right
        refine ⟨by simp [hs], ?_⟩
        rintro m (h | h)
        · exact ClientOp.noConfusion h
        · exact ((ClientOp.sched.inj h).1).symm
      · left; simp [h, hs]
    | setReady n =>
      simp only [updateAt_getElem?]
      by_cases h : k = n
      · subst h
        right
        refine ⟨by simp [hs], ?_⟩
        rintro m (h | h)
        · exact (ClientOp.setReady.inj h).symm
        · exact ClientOp.noConfusion h
      · left; simp [h, hs]
    | waitForReady n =>
      simp only [updateAt_getElem?]
      by_cases h : k = n
      · left; simp [h, hs, applyToClient]
        subst h; exact hs
      · left; simp [h, hs]
    | OpenFile n cidStr =>
      simp only [updateAt_getElem?]
      by_cases h : k = n
      · subst h
        right
        refine ⟨by simp [hs], ?_⟩
        rintro m (h | h) <;> exact ClientOp.noConfusion h
      · left; simp [h, hs]

theorem applyOp_ready (E : Collaborators) (op : ClientOp) (w : List Sys) (k : Nat) (s : Sys)
    (hs : w[k]? = some s) (hr : s.client.ready = true) :
    ∃ s', (applyOp E op w)[k]? = some s' ∧ s'.client.ready = true := by
  rcases applyOp_getElem? E op w k s hs with h | ⟨h, _⟩
  · exact ⟨s, h, hr⟩
  · refine ⟨_, h, ?_⟩
    rcases applyToClient_ready E op s with h' | ⟨h', _⟩
    · rw [h', hr]
    · rw [h']; rfl

theorem runOps_ready (E : Collaborators) (ops : List ClientOp) (w : List Sys) (k : Nat)
    (s : Sys) (hs : w[k]? = some s) (hr : s.client.ready = true) :
    ∃ s', (runOps E ops w)[k]? = some s' ∧ s'.client.ready = true := by
  induction ops generalizing w s with
  | nil => exact ⟨s, hs, hr⟩
  | cons op rest ih =>
    obtain ⟨s₁, h₁, hr₁⟩ := applyOp_ready E op w k s hs hr
    exact ih (applyOp E op w) s₁ h₁ hr₁

/-- C3: for the client at any position of a process, once `ready` is true it
is true after every sequence of operations (`NewIpfsClient`, the blocks of
`Start`, cancellation, the cleanup goroutine, `setReady`, `waitForReady`,
`OpenFile`, in any order and on any clients); and an operation that changes
the flag changes it from false to true and is a call of `setReady` on that
client, made directly or as the last statement of its `Start`. -/
theorem C3_ready_is_monotonic_and_written_only_by_setReady (E : Collaborators)
    (w : List Sys) (k : Nat) (s : Sys) (hs : w[k]? = some s) :
    (s.client.ready = true →
      ∀ ops, ∃ s', (runOps E ops w)[k]? = some s' ∧ s'.client.ready = true) ∧
    (∀ op s', (applyOp E op w)[k]? = some s' → s'.client.ready ≠ s.client.ready →
      s.client.ready = false ∧ s'.client = setReady s.client ∧
      (op = .setReady k ∨ (op = .sched k .start ∧ s.pc = .signal))) := by
  refine ⟨fun hr ops => runOps_ready E ops w k s hs hr, ?_⟩
  intro op s' hs' hne
  rcases applyOp_getElem? E op w k s hs with h | ⟨h, htarget⟩
  · rw [h] at hs'
    cases hs'
    exact absurd rfl hne
  · rw [h] at hs'
    cases hs'
    rcases applyToClient_ready E op s with h' | ⟨h', hop⟩
    · exact absurd h' hne
    · have hf : s.client.ready = false := by
        cases hb : s.client.ready with
        | false => rfl
        | true =>
          exfalso
          apply hne
          rw [h', hb]
          rfl
      refine ⟨hf, h', ?_⟩
      rcases hop with ⟨n, rfl⟩ | ⟨⟨n, rfl⟩, hpc⟩
      · left
        rw [htarget n (Or.inl rfl)]
      · right
        rw [htarget n (Or.inr rfl)]
        exact ⟨rfl, hpc⟩

/-- C3 on a process whose first client has been started: after a second
client is created and started, the context cancelled, the repository cleaned
up and files opened, the first client is still ready. -/
theorem C3_witness :
    [Start sampleCollaborators sampleClient][0]? = some (Start sampleCollaborators sampleClient) ∧
    (Start sampleCollaborators sampleClient).client.ready = true ∧
    ∃ s', (runOps sampleCollaborators
        [.NewIpfsClient [WithBootstrapPeers sampleDescriptors], .sched 1 .start,
          .sched 0 .cancel, .sched 0 .cleanupWake, .sched 0 .cleanupRemove,
          .waitForReady 0, .OpenFile 0 "QmFile", .sched 0 .start, .setReady 1]
        [Start sampleCollaborators sampleClient])[0]? = some s' ∧
      s'.client.ready = true :=
  ⟨rfl, by decide,
    (C3_ready_is_monotonic_and_written_only_by_setReady sampleCollaborators
      [Start sampleCollaborators sampleClient] 0 (Start sampleCollaborators sampleClient)
      rfl).1 (by decide) _⟩

end Client
